import Mathlib

/-!
Shallow embedding of the paper-trading ledger family of the `fintech-agent`
repository: `VirtualTrader` (src/virtual_trader.py), `MultiCryptoTrader`
(src/multi_crypto_trader.py) and `PaperBroker` (src/src/paper_broker.py).

Modelling conventions:
* Python floats / `Decimal` money amounts are modelled as exact rationals (`ℚ`).
* Python dicts keyed by symbol are modelled as association lists in insertion
  order; lookup and update act on the first matching key, as a dict with unique
  keys does.
* Python string messages distinguishing rejection reasons are modelled by the
  inductive `Msg`; status strings ("pending", "filled", ...) are kept as strings.
* Fallible Python code (a statement that can raise) is modelled with `Option`
  where a claim depends on the exception (`pydiv` for `ZeroDivisionError`).
-/

namespace FintechAgent

/-- A held position: quantity and volume-weighted average entry price
(the `{"quantity": ..., "avg_price": ...}` dict values of both in-memory
traders, and `PaperPosition.qty`/`avg_price` of the broker). -/
structure Pos where
  quantity : ℚ
  avg_price : ℚ
deriving DecidableEq, Repr

/-- The `self.positions` dict: symbol -> position, in insertion order. -/
abbrev PosMap := List (String × Pos)

/-- Dict lookup (`self.positions.get(symbol)` / `symbol in self.positions`). -/
def lookupPos : PosMap → String → Option Pos
  | [], _ => none
  | (k, v) :: rest, sym => if k = sym then some v else lookupPos rest sym

/-- Dict write (`self.positions[symbol] = ...`): replaces the first binding of
the key, or appends a new binding. -/
def setPos : PosMap → String → Pos → PosMap
  | [], sym, p => [(sym, p)]
  | (k, v) :: rest, sym, p =>
    if k = sym then (k, p) :: rest else (k, v) :: setPos rest sym p

/-- Dict delete (`del self.positions[symbol]`). -/
def delPos : PosMap → String → PosMap
  | [], _ => []
  | (k, v) :: rest, sym => if k = sym then rest else (k, v) :: delPos rest sym

/-- An `Order` dataclass record (id and timestamp omitted: they are a random
uuid and the wall clock, irrelevant to the ledger state). -/
structure Order where
  symbol : String
  side : String
  quantity : ℚ
  price : ℚ
  order_type : String
  status : String
deriving DecidableEq, Repr

/-- A trade-history record as appended by `_execute_order` (both traders). -/
structure Trade where
  symbol : String
  side : String
  quantity : ℚ
  price : ℚ
  status : String
deriving DecidableEq, Repr

/-- The distinguishing content of the `message` strings returned by
`place_order` / `_execute_order` of both in-memory traders. -/
inductive Msg
  | insufficientCash
  | insufficientPosition
  | belowMinimum
  | positionLimit
  | orderPlaced
  | orderExecuted
deriving DecidableEq, Repr

/-- The `{"success": ..., "message": ...}` dict returned by `place_order`. -/
structure OrderResult where
  success : Bool
  msg : Msg
deriving DecidableEq, Repr

/-- Mutable state of a `VirtualTrader` / `MultiCryptoTrader` instance. -/
structure TState where
  starting_cash : ℚ
  cash : ℚ
  positions : PosMap
  orders : List Order
  trade_history : List Trade
deriving DecidableEq, Repr

/-- `__init__(starting_cash)` of both in-memory traders. -/
def TState.fresh (starting_cash : ℚ) : TState :=
  ⟨starting_cash, starting_cash, [], [], []⟩

/-- The position record written by the buy branch of `_execute_order` (the
identical lines 136-146 of src/virtual_trader.py and 198-208 of
src/multi_crypto_trader.py): accumulate the quantity and recompute the
volume-weighted average price, the division guarded by `total_quantity > 0`. -/
def buyPos (cur : Pos) (quantity price : ℚ) : Pos :=
  let total_quantity := cur.quantity + quantity
  let total_cost := cur.quantity * cur.avg_price + quantity * price
  ⟨total_quantity, if total_quantity > 0 then total_cost / total_quantity else 0⟩

/-- `VirtualTrader._execute_order` (src/virtual_trader.py lines 127-184).
The `try/except` never fires in this model: the only division is guarded by
`total_quantity > 0` in the source itself. In the real code the filled order
object aliases the entry appended to `self.orders`, so the recorded order
carries status "filled"; we append it with that status directly. -/
def virtualExecuteOrder (s : TState) (o : Order) : TState × OrderResult :=
  let s1 :=
    if o.side = "buy" then
      let cur := (lookupPos s.positions o.symbol).getD ⟨0, 0⟩
      { s with cash := s.cash - o.quantity * o.price,
               positions := setPos s.positions o.symbol (buyPos cur o.quantity o.price) }
    else if o.side = "sell" then
      let proceeds := o.quantity * o.price
      match lookupPos s.positions o.symbol with
      | some cur =>
        { s with cash := s.cash + proceeds,
                 positions := setPos s.positions o.symbol
                                ⟨cur.quantity - o.quantity, cur.avg_price⟩ }
      | none => { s with cash := s.cash + proceeds }
    else s
  ({ s1 with orders := s.orders ++ [{ o with status := "filled" }],
             trade_history := s.trade_history ++
               [⟨o.symbol, o.side, o.quantity, o.price, "filled"⟩] },
   ⟨true, .orderExecuted⟩)

/-- `VirtualTrader.place_order` (src/virtual_trader.py lines 80-125). -/
def virtualPlaceOrder (s : TState) (symbol side : String) (quantity price : ℚ)
    (order_type : String) : TState × OrderResult :=
  if side = "buy" ∧ quantity * price > s.cash then
    (s, ⟨false, .insufficientCash⟩)
  else if side = "sell" ∧
      quantity > ((lookupPos s.positions symbol).getD ⟨0, 0⟩).quantity then
    (s, ⟨false, .insufficientPosition⟩)
  else
    let o : Order := ⟨symbol, side, quantity, price, order_type, "pending"⟩
    if order_type = "market" then
      virtualExecuteOrder s o
    else
      ({ s with orders := s.orders ++ [o] }, ⟨true, .orderPlaced⟩)

/-- `reset_portfolio(starting_cash=None)` of both in-memory traders (the two
method bodies are identical: src/virtual_trader.py lines 194-201 and
src/multi_crypto_trader.py lines 303-310). `if starting_cash:` is Python
truthiness: `None` and `0.0` both skip the update. -/
def traderReset (s : TState) (starting_cash : Option ℚ) : TState :=
  let st := match starting_cash with
    | some c => if c ≠ 0 then c else s.starting_cash
    | none => s.starting_cash
  ⟨st, st, [], [], []⟩

/-- `self.max_position_pct = 0.3` (src/multi_crypto_trader.py line 48). -/
def multiMaxPositionPct : ℚ := 3 / 10

/-- `self.min_trade_size = 10` (src/multi_crypto_trader.py line 50). -/
def multiMinTradeSize : ℚ := 10

/-- Dust threshold `0.000001` of `MultiCryptoTrader._execute_order` line 220. -/
def multiEpsilon : ℚ := 1 / 1000000

/-- The concentration ratio computed inline by `MultiCryptoTrader.place_order`
(lines 137-147).  Note: `total_portfolio_value` values every held position at
the submitted order's `price`, not at a per-symbol market price — the source is
`sum(pos["quantity"] * price for pos in self.positions.values())`. -/
def multiPositionPct (s : TState) (symbol : String) (quantity price : ℚ) : ℚ :=
  let trade_value := quantity * price
  let current_position_value : ℚ :=
    match lookupPos s.positions symbol with
    | some cur => cur.quantity * price
    | none => 0
  let new_position_value := current_position_value + trade_value
  let total_portfolio_value :=
    s.cash + (s.positions.map (fun e => e.2.quantity * price)).sum
  new_position_value / (total_portfolio_value + trade_value)

/-- `MultiCryptoTrader._execute_order` (src/multi_crypto_trader.py lines
189-252): as `virtualExecuteOrder`, plus removal of a position whose remaining
quantity is `<= 0.000001` after a sell. -/
def multiExecuteOrder (s : TState) (o : Order) : TState × OrderResult :=
  let s1 :=
    if o.side = "buy" then
      let cur := (lookupPos s.positions o.symbol).getD ⟨0, 0⟩
      { s with cash := s.cash - o.quantity * o.price,
               positions := setPos s.positions o.symbol (buyPos cur o.quantity o.price) }
    else if o.side = "sell" then
      let proceeds := o.quantity * o.price
      match lookupPos s.positions o.symbol with
      | some cur =>
        let q' := cur.quantity - o.quantity
        { s with cash := s.cash + proceeds,
                 positions :=
                   if q' ≤ multiEpsilon then delPos s.positions o.symbol
                   else setPos s.positions o.symbol ⟨q', cur.avg_price⟩ }
      | none => { s with cash := s.cash + proceeds }
    else s
  ({ s1 with orders := s.orders ++ [{ o with status := "filled" }],
             trade_history := s.trade_history ++
               [⟨o.symbol, o.side, o.quantity, o.price, "filled"⟩] },
   ⟨true, .orderExecuted⟩)

/-- `MultiCryptoTrader.place_order` (src/multi_crypto_trader.py lines 113-187). -/
def multiPlaceOrder (s : TState) (symbol side : String) (quantity price : ℚ)
    (order_type : String) : TState × OrderResult :=
  let trade_value := quantity * price
  if trade_value < multiMinTradeSize then
    (s, ⟨false, .belowMinimum⟩)
  else if side = "buy" ∧ trade_value > s.cash then
    (s, ⟨false, .insufficientCash⟩)
  else if side = "buy" ∧ multiPositionPct s symbol quantity price > multiMaxPositionPct then
    (s, ⟨false, .positionLimit⟩)
  else if side = "sell" ∧
      quantity > ((lookupPos s.positions symbol).getD ⟨0, 0⟩).quantity then
    (s, ⟨false, .insufficientPosition⟩)
  else
    let o : Order := ⟨symbol, side, quantity, price, order_type, "pending"⟩
    if order_type = "market" then
      multiExecuteOrder s o
    else
      ({ s with orders := s.orders ++ [o] }, ⟨true, .orderPlaced⟩)

/-! ### PaperBroker (src/src/paper_broker.py) -/

/-- `settings.slippage_bps` default (src/src/config.py line 24). -/
def settingsSlippageBps : ℚ := 5

/-- `settings.fee_bps` default (src/src/config.py line 25). -/
def settingsFeeBps : ℚ := 10

/-- `settings.starting_cash_usd` default (src/src/config.py line 11). -/
def settingsStartingCash : ℚ := 10000

/-- The `quantity | notional` alternative of a `PaperOrder`: `create_order`
rejects an order specifying both or neither (src/src/paper_broker.py lines
92-96), so an executed order carries exactly one of them. -/
inductive QtySpec
  | qty (q : ℚ)
  | notional (n : ℚ)
deriving DecidableEq, Repr

/-- A `PaperFill` row (src/src/database.py): price, quantity, fee. -/
structure BrokerFill where
  price : ℚ
  qty : ℚ
  fee : ℚ
deriving DecidableEq, Repr

/-- The ledger-relevant outcome of one broker order execution: the terminal
order status string, the account's new cash balance, the new positions, and
the fills recorded. -/
structure BrokerOutcome where
  status : String
  cash_balance : ℚ
  positions : PosMap
  fills : List BrokerFill
deriving DecidableEq, Repr

/-- `PaperBroker._update_position` (src/src/paper_broker.py lines 242-275).
A missing row is created with `qty = 0, avg_price = 0` first.  On a sell the
quantity is decremented with *no* sufficiency check, and a negative result is
clamped to zero. -/
def brokerUpdatePosition (positions : PosMap) (instrument : String)
    (quantity price : ℚ) (side : String) : PosMap :=
  let position := (lookupPos positions instrument).getD ⟨0, 0⟩
  let position' :=
    if side = "buy" then
      if position.quantity = 0 then
        (⟨quantity, price⟩ : Pos)
      else
        let total_cost := position.quantity * position.avg_price + quantity * price
        let q' := position.quantity + quantity
        ⟨q', total_cost / q'⟩
    else
      let q' := position.quantity - quantity
      ⟨if q' < 0 then 0 else q', position.avg_price⟩
  setPos positions instrument position'

/-- `PaperBroker._execute_market_order` (src/src/paper_broker.py lines
131-181), combined with `_update_cash_balance` (lines 277-290).
`current_price` is the Pricing Gateway result; Python's `if not current_price`
treats both `None` and `0` as absent, modelled via `getD 0` and a zero test.
Note the source computes a buy's net cost as `notional - fee` (the fee is
credited to the buyer) and a sell's net proceeds as `notional + fee`. -/
def brokerExecuteMarketOrder (slippage_bps fee_bps : ℚ) (cash : ℚ)
    (positions : PosMap) (instrument side : String) (spec : QtySpec)
    (current_price : Option ℚ) : BrokerOutcome :=
  let price := current_price.getD 0
  if price = 0 then ⟨"rejected", cash, positions, []⟩
  else
    let slippage := price * (slippage_bps / 10000)
    let execution_price := if side = "buy" then price + slippage else price - slippage
    let quantity := match spec with
      | .qty q => q
      | .notional n => n / execution_price
    let notional := match spec with
      | .qty q => q * execution_price
      | .notional n => n
    let fee := notional * (fee_bps / 10000)
    let net_notional := if side = "buy" then notional - fee else notional + fee
    if side = "buy" ∧ net_notional > cash then
      ⟨"rejected", cash, positions, []⟩
    else
      let positions' := brokerUpdatePosition positions instrument quantity execution_price side
      let cash' := if side = "buy" then cash - net_notional else cash + net_notional
      ⟨"filled", cash', positions', [⟨execution_price, quantity, fee⟩]⟩

/-- `PaperBroker._execute_limit_order` (src/src/paper_broker.py lines
183-240), combined with `_update_cash_balance`.  A non-crossing order is left
in status "created" with no ledger change. -/
def brokerExecuteLimitOrder (slippage_bps fee_bps : ℚ) (cash : ℚ)
    (positions : PosMap) (instrument side : String) (spec : QtySpec)
    (limit_price : ℚ) (current_price : Option ℚ) : BrokerOutcome :=
  let price := current_price.getD 0
  if price = 0 then ⟨"rejected", cash, positions, []⟩
  else
    let should_fill :=
      (side = "buy" ∧ price ≤ limit_price) ∨ (side = "sell" ∧ price ≥ limit_price)
    if ¬ should_fill then ⟨"created", cash, positions, []⟩
    else
      let execution_price := limit_price
      let quantity := match spec with
        | .qty q => q
        | .notional n => n / execution_price
      let notional := match spec with
        | .qty q => q * execution_price
        | .notional n => n
      let fee := notional * (fee_bps / 10000)
      let net_notional := if side = "buy" then notional - fee else notional + fee
      if side = "buy" ∧ net_notional > cash then
        ⟨"rejected", cash, positions, []⟩
      else
        let positions' := brokerUpdatePosition positions instrument quantity execution_price side
        let cash' := if side = "buy" then cash - net_notional else cash + net_notional
        ⟨"filled", cash', positions', [⟨execution_price, quantity, fee⟩]⟩

/-- Ledger-relevant state of one `PaperAccount` with its positions. -/
structure BState where
  cash : ℚ
  positions : PosMap
deriving DecidableEq, Repr

/-- One `PaperBroker` operation on an account, with the Pricing Gateway's
answer for that call supplied as data.  `cancel_order` (lines 319-337) only
flips a resting order's status and never touches cash or positions. -/
inductive BrokerOp
  | market (instrument side : String) (spec : QtySpec) (current_price : Option ℚ)
  | limit (instrument side : String) (spec : QtySpec) (limit_price : ℚ)
      (current_price : Option ℚ)
  | cancel

/-- Effect of one broker operation on the account ledger (default
slippage/fee settings, as `PaperBroker.__init__` reads them from `settings`). -/
def brokerStep (s : BState) : BrokerOp → BState
  | .market instrument side spec current_price =>
    let o := brokerExecuteMarketOrder settingsSlippageBps settingsFeeBps
      s.cash s.positions instrument side spec current_price
    ⟨o.cash_balance, o.positions⟩
  | .limit instrument side spec limit_price current_price =>
    let o := brokerExecuteLimitOrder settingsSlippageBps settingsFeeBps
      s.cash s.positions instrument side spec limit_price current_price
    ⟨o.cash_balance, o.positions⟩
  | .cancel => s

/-- A sequence of broker operations applied to an account. -/
def brokerRun (s : BState) (ops : List BrokerOp) : BState :=
  ops.foldl brokerStep s

/-! ### Portfolio valuation (`get_portfolio` of both in-memory traders)

Python division raises `ZeroDivisionError` on a zero divisor; `pydiv` makes
that explicit, and the whole snapshot computation is `Option`-valued: `none`
models the method raising instead of returning. -/

/-- Python `/` on floats: `none` models `ZeroDivisionError`. -/
def pydiv (a b : ℚ) : Option ℚ := if b = 0 then none else some (a / b)

/-- A price dict; `VirtualTrader` takes `symbol -> price`, `MultiCryptoTrader`
takes `symbol -> {"price": ...}` — both reduce to this. -/
abbrev PriceMap := List (String × ℚ)

/-- Dict lookup on a price map. -/
def lookupPrice : PriceMap → String → Option ℚ
  | [], _ => none
  | (k, v) :: rest, sym => if k = sym then some v else lookupPrice rest sym

/-- A `Position` dataclass of `VirtualTrader` (src/virtual_trader.py lines 7-14). -/
structure VPositionView where
  symbol : String
  quantity : ℚ
  avg_price : ℚ
  current_price : ℚ
  pnl : ℚ
  pnl_pct : ℚ
deriving DecidableEq, Repr

/-- The position loop of `VirtualTrader.get_portfolio` (lines 49-66): one view
per held position with nonzero quantity, in iteration order.  The per-position
`pnl_pct` division is guarded by `avg_price > 0` in the source. -/
def virtualRows (prices : PriceMap) : PosMap → Option (List VPositionView)
  | [] => some []
  | (sym, pos) :: rest =>
    if pos.quantity ≠ 0 then do
      let current_price := (lookupPrice prices sym).getD pos.avg_price
      let position_value := pos.quantity * current_price
      let pnl := position_value - pos.quantity * pos.avg_price
      let pnl_pct ←
        if pos.avg_price > 0 then
          (pydiv pnl (pos.quantity * pos.avg_price)).map (· * 100)
        else some 0
      let rows ← virtualRows prices rest
      some (⟨sym, pos.quantity, pos.avg_price, current_price, pnl, pnl_pct⟩ :: rows)
    else virtualRows prices rest

/-- The `Portfolio` dataclass of `VirtualTrader` (lines 27-33). -/
structure VPortfolio where
  cash : ℚ
  positions : List VPositionView
  total_value : ℚ
  total_pnl : ℚ
  total_pnl_pct : ℚ
deriving DecidableEq, Repr

/-- `VirtualTrader.get_portfolio` (src/virtual_trader.py lines 43-78).  The
final `total_pnl_pct = (total_pnl_overall / self.starting_cash) * 100` is NOT
guarded: it divides by `starting_cash` unconditionally. -/
def virtualGetPortfolio (s : TState) (prices : PriceMap) : Option VPortfolio := do
  let rows ← virtualRows prices s.positions
  let total_position_value := (rows.map (fun r => r.quantity * r.current_price)).sum
  let total_value := s.cash + total_position_value
  let total_pnl_overall := total_value - s.starting_cash
  let q ← pydiv total_pnl_overall s.starting_cash
  some ⟨s.cash, rows, total_value, total_pnl_overall, q * 100⟩

/-- A `Position` dataclass of `MultiCryptoTrader` (src/multi_crypto_trader.py
lines 7-15): as the virtual one plus `market_value`. -/
structure MPositionView where
  symbol : String
  quantity : ℚ
  avg_price : ℚ
  current_price : ℚ
  market_value : ℚ
  pnl : ℚ
  pnl_pct : ℚ
deriving DecidableEq, Repr

/-- The position loop of `MultiCryptoTrader.get_portfolio` (lines 59-78): a
position contributes only if its quantity is nonzero AND its symbol is in
`current_prices` (no fallback price here, unlike the virtual trader). -/
def multiRows (prices : PriceMap) : PosMap → Option (List MPositionView)
  | [] => some []
  | (sym, pos) :: rest =>
    match lookupPrice prices sym with
    | some current_price =>
      if pos.quantity ≠ 0 then do
        let market_value := pos.quantity * current_price
        let pnl := market_value - pos.quantity * pos.avg_price
        let pnl_pct ←
          if pos.avg_price > 0 then
            (pydiv pnl (pos.quantity * pos.avg_price)).map (· * 100)
          else some 0
        let rows ← multiRows prices rest
        some (⟨sym, pos.quantity, pos.avg_price, current_price, market_value,
               pnl, pnl_pct⟩ :: rows)
      else multiRows prices rest
    | none => multiRows prices rest

/-- The generator `(value / total_value) ** 2 for value in
position_values.values()` inside `_calculate_diversification_score`, with
Python division made explicit. -/
def hhiTerms (total_value : ℚ) : List (String × ℚ) → Option (List ℚ)
  | [] => some []
  | e :: rest => do
    let w ← pydiv e.2 total_value
    let ws ← hhiTerms total_value rest
    some (w ^ 2 :: ws)

/-- `MultiCryptoTrader._calculate_diversification_score` (lines 99-111),
applied to the `position_values` computed by the portfolio loop. -/
def diversificationScore (position_values : List (String × ℚ)) (total_value : ℚ) :
    Option ℚ :=
  if position_values = [] ∨ total_value = 0 then some 0
  else do
    let terms ← hhiTerms total_value position_values
    some (max 0 (min 100 ((1 - terms.sum) * 100)))

/-- `max(position_values, key=position_values.get)` of line 85: the first key
attaining the maximal value, `"None"` when there are no values. -/
def largestPosition (position_values : List (String × ℚ)) : String :=
  match position_values with
  | [] => "None"
  | e :: rest =>
    (rest.foldl (fun best e2 => if e2.2 > best.2 then e2 else best) e).1

/-- The `Portfolio` dataclass of `MultiCryptoTrader` (lines 28-37). -/
structure MPortfolio where
  cash : ℚ
  total_value : ℚ
  total_pnl : ℚ
  total_pnl_pct : ℚ
  positions : List MPositionView
  position_count : ℕ
  largest_position : String
  diversification_score : ℚ
deriving DecidableEq, Repr

/-- `MultiCryptoTrader.get_portfolio` (src/multi_crypto_trader.py lines
52-97).  Here `total_pnl_pct` IS guarded: `... if self.starting_cash > 0 else 0`. -/
def multiGetPortfolio (s : TState) (prices : PriceMap) : Option MPortfolio := do
  let rows ← multiRows prices s.positions
  let position_values := rows.map (fun r => (r.symbol, r.market_value))
  let total_position_value := (rows.map (·.market_value)).sum
  let total_value := s.cash + total_position_value
  let total_pnl_overall := total_value - s.starting_cash
  let total_pnl_pct ←
    if s.starting_cash > 0 then
      (pydiv total_pnl_overall s.starting_cash).map (· * 100)
    else some 0
  let dscore ← diversificationScore position_values total_position_value
  some ⟨s.cash, total_value, total_pnl_overall, total_pnl_pct, rows,
        rows.length, largestPosition position_values, dscore⟩

/-! ### Operation traces over an in-memory trader

A reachable state of a trader instance is the result of a sequence of
`place_order` / `reset_portfolio` calls on a freshly constructed instance
(these are the only mutating methods of both in-memory traders). -/

/-- One mutating call on an in-memory trader. -/
inductive TraderOp
  | place (symbol side : String) (quantity price : ℚ) (order_type : String)
  | reset (starting_cash : Option ℚ)

/-- State transition of one `VirtualTrader` call. -/
def virtualStep (s : TState) : TraderOp → TState
  | .place symbol side quantity price order_type =>
    (virtualPlaceOrder s symbol side quantity price order_type).1
  | .reset c => traderReset s c

/-- A call sequence on a `VirtualTrader`. -/
def virtualRun (s : TState) (ops : List TraderOp) : TState :=
  ops.foldl virtualStep s

/-- State transition of one `MultiCryptoTrader` call. -/
def multiStep (s : TState) : TraderOp → TState
  | .place symbol side quantity price order_type =>
    (multiPlaceOrder s symbol side quantity price order_type).1
  | .reset c => traderReset s c

/-- A call sequence on a `MultiCryptoTrader`. -/
def multiRun (s : TState) (ops : List TraderOp) : TState :=
  ops.foldl multiStep s

/-- A well-formed call: quantities, prices and reset amounts are nonnegative
(the callers of these traders submit nonnegative quantities and market
prices; neither trader validates signs itself). -/
def TraderOp.WF : TraderOp → Prop
  | .place _ _ quantity price _ => 0 ≤ quantity ∧ 0 ≤ price
  | .reset none => True
  | .reset (some c) => 0 ≤ c

/-- All position quantities in a map are nonnegative. -/
def QtyNonNeg (m : PosMap) : Prop := ∀ e ∈ m, 0 ≤ (e.2).quantity

/-- The no-negative-state invariant of the spec, for one trader state. -/
def TState.NonNeg (s : TState) : Prop :=
  0 ≤ s.starting_cash ∧ 0 ≤ s.cash ∧ QtyNonNeg s.positions

/-- Book value of the open positions: Σ quantity * avg_price. -/
def posValue (m : PosMap) : ℚ :=
  (m.map (fun e => (e.2).quantity * (e.2).avg_price)).sum

/-- The order and trade-history bookkeeping shared by every `_execute_order`
branch: the order is recorded with status "filled" and a trade appended. -/
def recordFill (s : TState) (o : Order) : TState :=
  { s with orders := s.orders ++ [{ o with status := "filled" }],
           trade_history := s.trade_history ++
             [⟨o.symbol, o.side, o.quantity, o.price, "filled"⟩] }

/-- Quantity currently held for a symbol (0 when flat), as read by the sell
validation `self.positions.get(symbol, {"quantity": 0.0})`. -/
def heldQty (s : TState) (symbol : String) : ℚ :=
  ((lookupPos s.positions symbol).getD ⟨0, 0⟩).quantity

/-- Average entry price currently recorded for a symbol (0 when flat). -/
def heldAvg (s : TState) (symbol : String) : ℚ :=
  ((lookupPos s.positions symbol).getD ⟨0, 0⟩).avg_price

/-- Realized profit-and-loss of one `VirtualTrader` call, in the standard
cost-basis sense: a market sell that passes validation realizes
`quantity * (price - avg_price at fill time)`; every other call realizes
nothing.  (This is a specification-side quantity used to state conservation;
the trader itself does not track it.) -/
def realizedStep (s : TState) : TraderOp → ℚ
  | .place symbol side quantity price order_type =>
    if side = "sell" ∧ order_type = "market" ∧ quantity ≤ heldQty s symbol then
      quantity * (price - heldAvg s symbol)
    else 0
  | .reset _ => 0

/-- Total realized profit-and-loss along a `VirtualTrader` call sequence. -/
def realizedTotal (s : TState) : List TraderOp → ℚ
  | [] => 0
  | op :: ops => realizedStep s op + realizedTotal (virtualStep s op) ops

/-- A call that is an order placement (not a reset). -/
def TraderOp.IsPlace : TraderOp → Prop
  | .place _ _ _ _ _ => True
  | .reset _ => False

/-- Modelled from the spec (§4.3 step 3), for comparison with the source's
`multiPositionPct`: "Position concentration: `(existing_position_value +
trade_value) / (portfolio_total_value + trade_value) <= max_position_pct`",
"where existing_position_value and portfolio_total_value are computed from
current holdings at current market prices".  Each held position is valued at
its own symbol's market price. -/
def specPositionPct (cash : ℚ) (positions : PosMap) (market_prices : PriceMap)
    (symbol : String) (trade_value : ℚ) : ℚ :=
  let existing_position_value : ℚ :=
    match lookupPos positions symbol with
    | some cur => cur.quantity * ((lookupPrice market_prices symbol).getD 0)
    | none => 0
  let portfolio_total_value :=
    cash + (positions.map
      (fun e => e.2.quantity * ((lookupPrice market_prices e.1).getD 0))).sum
  (existing_position_value + trade_value) / (portfolio_total_value + trade_value)

/-- A well-formed order-size specification: the given quantity or notional is
nonnegative. -/
def QtySpec.WF : QtySpec → Prop
  | .qty q => 0 ≤ q
  | .notional n => 0 ≤ n

/-- A well-formed broker operation: nonnegative order sizes, prices and
limit prices. -/
def BrokerOp.WF : BrokerOp → Prop
  | .market _ _ spec current_price => spec.WF ∧ 0 ≤ current_price.getD 0
  | .limit _ _ spec limit_price current_price =>
      spec.WF ∧ 0 ≤ limit_price ∧ 0 ≤ current_price.getD 0
  | .cancel => True

/-- The broker account invariant: nonnegative cash and position quantities. -/
def BState.NonNeg (s : BState) : Prop := 0 ≤ s.cash ∧ QtyNonNeg s.positions

/-- Round a rational to the nearest integer, ties to even — the IEEE-754
default rounding direction, which Python float arithmetic uses. -/
def roundHalfEven (x : ℚ) : ℤ :=
  let f := ⌊x⌋
  let r := x - f
  if r < 1/2 then f
  else if 1/2 < r then f + 1
  else if f % 2 = 0 then f else f + 1

/-- Round a rational to the nearest IEEE-754 binary64 value (53 significant
bits, round to nearest, ties to even) — the arithmetic of Python floats,
which `VirtualTrader` uses for all money amounts.  CPython rounds every
decimal float literal and the result of every float operation this way.
Overflow and subnormals are outside the range of the values considered
here and are not modelled. -/
def roundDouble (x : ℚ) : ℚ :=
  if x = 0 then 0
  else
    let e : ℤ := Int.log 2 |x|
    (roundHalfEven (x * 2 ^ ((52:ℤ) - e)) : ℚ) * 2 ^ (e - 52)

/-- Python float addition: the exact sum, rounded to binary64. -/
def fadd (x y : ℚ) : ℚ := roundDouble (x + y)

/-- Python float multiplication: the exact product, rounded to binary64. -/
def fmul (x y : ℚ) : ℚ := roundDouble (x * y)

/-- Python float division: the exact quotient, rounded to binary64. -/
def fdiv (x y : ℚ) : ℚ := roundDouble (x / y)

/-- The position record written by the buy branch of `_execute_order`
(src/virtual_trader.py lines 136-146), with the source's binary-float
arithmetic made explicit: the same formula as `buyPos`, but every `+`, `*`
and `/` rounds its result to binary64 as Python floats do. -/
def buyPosFloat (cur : Pos) (quantity price : ℚ) : Pos :=
  let cost := fmul quantity price
  let total_quantity := fadd cur.quantity quantity
  let total_cost := fadd (fmul cur.quantity cur.avg_price) cost
  ⟨total_quantity,
   if total_quantity > 0 then fdiv total_cost total_quantity else 0⟩

/-! ### Association-list lemmas -/

theorem lookupPos_mem {m : PosMap} {sym : String} {v : Pos}
    (h : lookupPos m sym = some v) : (sym, v) ∈ m := by
  induction m with
  | nil => simp [lookupPos] at h
  | cons f rest ih =>
    obtain ⟨k, w⟩ := f
    by_cases hk : k = sym
    · subst hk
      simp [lookupPos] at h
      simp [h]
    · simp only [lookupPos, if_neg hk] at h
      exact List.mem_cons_of_mem _ (ih h)

theorem mem_setPos {m : PosMap} {sym : String} {p : Pos} {e : String × Pos}
    (h : e ∈ setPos m sym p) : e.2 = p ∨ e ∈ m := by
  induction m with
  | nil =>
    simp only [setPos, List.mem_singleton] at h
    exact Or.inl (by rw [h])
  | cons f rest ih =>
    obtain ⟨k, w⟩ := f
    by_cases hk : k = sym
    · simp only [setPos, if_pos hk, List.mem_cons] at h
      rcases h with h | h
      · exact Or.inl (by rw [h])
      · exact Or.inr (List.mem_cons_of_mem _ h)
    · simp only [setPos, if_neg hk, List.mem_cons] at h
      rcases h with h | h
      · exact Or.inr (by simp [h])
      · rcases ih h with h2 | h2
        · exact Or.inl h2
        · exact Or.inr (List.mem_cons_of_mem _ h2)

theorem mem_delPos {m : PosMap} {sym : String} {e : String × Pos}
    (h : e ∈ delPos m sym) : e ∈ m := by
  induction m with
  | nil => simpa [delPos] using h
  | cons f rest ih =>
    obtain ⟨k, w⟩ := f
    by_cases hk : k = sym
    · simp only [delPos, if_pos hk] at h
      exact List.mem_cons_of_mem _ h
    · simp only [delPos, if_neg hk, List.mem_cons] at h
      rcases h with h | h
      · simp [h]
      · exact List.mem_cons_of_mem _ (ih h)

theorem lookupPos_setPos_self (m : PosMap) (sym : String) (p : Pos) :
    lookupPos (setPos m sym p) sym = some p := by
  induction m with
  | nil => simp [setPos, lookupPos]
  | cons f rest ih =>
    obtain ⟨k, w⟩ := f
    by_cases hk : k = sym
    · simp [setPos, lookupPos, hk]
    · simp [setPos, lookupPos, hk, ih]

theorem posValue_cons (f : String × Pos) (rest : PosMap) :
    posValue (f :: rest) = (f.2).quantity * (f.2).avg_price + posValue rest := by
  simp [posValue]

theorem posValue_setPos (m : PosMap) (sym : String) (p : Pos) :
    posValue (setPos m sym p) +
        ((lookupPos m sym).getD ⟨0, 0⟩).quantity *
          ((lookupPos m sym).getD ⟨0, 0⟩).avg_price
      = posValue m + p.quantity * p.avg_price := by
  induction m with
  | nil => simp [posValue, setPos, lookupPos]
  | cons f rest ih =>
    obtain ⟨k, w⟩ := f
    by_cases hk : k = sym
    · simp only [setPos, if_pos hk, lookupPos, posValue_cons, Option.getD_some]
      ring
    · simp only [setPos, if_neg hk, lookupPos, posValue_cons]
      linarith [ih]

theorem qtyNonNeg_setPos {m : PosMap} {sym : String} {p : Pos}
    (hm : QtyNonNeg m) (hp : 0 ≤ p.quantity) : QtyNonNeg (setPos m sym p) := by
  intro e he
  rcases mem_setPos he with h | h
  · rw [h]; exact hp
  · exact hm e h

theorem qtyNonNeg_delPos {m : PosMap} {sym : String} (hm : QtyNonNeg m) :
    QtyNonNeg (delPos m sym) :=
  fun e he => hm e (mem_delPos he)

theorem lookupPos_getD_qty_nonneg {m : PosMap} (hm : QtyNonNeg m) (sym : String) :
    0 ≤ ((lookupPos m sym).getD ⟨0, 0⟩).quantity := by
  cases hlk : lookupPos m sym with
  | none => simp
  | some v => simpa using hm _ (lookupPos_mem hlk)

/-! ### Characterization of the execution branches -/

theorem virtualExecuteOrder_snd (s : TState) (o : Order) :
    (virtualExecuteOrder s o).2 = ⟨true, .orderExecuted⟩ := rfl

theorem multiExecuteOrder_snd (s : TState) (o : Order) :
    (multiExecuteOrder s o).2 = ⟨true, .orderExecuted⟩ := rfl

theorem virtualExecuteOrder_fst_buy {s : TState} {o : Order} (hb : o.side = "buy") :
    (virtualExecuteOrder s o).1 =
      recordFill
        { s with cash := s.cash - o.quantity * o.price,
                 positions := setPos s.positions o.symbol
                   (buyPos ((lookupPos s.positions o.symbol).getD ⟨0, 0⟩)
                     o.quantity o.price) }
        o := by
  simp [virtualExecuteOrder, recordFill, hb]

theorem virtualExecuteOrder_fst_sell_some {s : TState} {o : Order} {cur : Pos}
    (hsl : o.side = "sell") (hlk : lookupPos s.positions o.symbol = some cur) :
    (virtualExecuteOrder s o).1 =
      recordFill
        { s with cash := s.cash + o.quantity * o.price,
                 positions := setPos s.positions o.symbol
                   ⟨cur.quantity - o.quantity, cur.avg_price⟩ }
        o := by
  have hb : ¬ o.side = "buy" := by rw [hsl]; decide
  simp [virtualExecuteOrder, recordFill, hb, hsl, hlk]

theorem virtualExecuteOrder_fst_sell_none {s : TState} {o : Order}
    (hsl : o.side = "sell") (hlk : lookupPos s.positions o.symbol = none) :
    (virtualExecuteOrder s o).1 =
      recordFill { s with cash := s.cash + o.quantity * o.price } o := by
  have hb : ¬ o.side = "buy" := by rw [hsl]; decide
  simp [virtualExecuteOrder, recordFill, hb, hsl, hlk]

theorem virtualExecuteOrder_fst_other {s : TState} {o : Order}
    (hb : ¬ o.side = "buy") (hsl : ¬ o.side = "sell") :
    (virtualExecuteOrder s o).1 = recordFill s o := by
  simp [virtualExecuteOrder, recordFill, hb, hsl]

theorem multiExecuteOrder_fst_buy {s : TState} {o : Order} (hb : o.side = "buy") :
    (multiExecuteOrder s o).1 =
      recordFill
        { s with cash := s.cash - o.quantity * o.price,
                 positions := setPos s.positions o.symbol
                   (buyPos ((lookupPos s.positions o.symbol).getD ⟨0, 0⟩)
                     o.quantity o.price) }
        o := by
  simp [multiExecuteOrder, recordFill, hb]

theorem multiExecuteOrder_fst_sell_some {s : TState} {o : Order} {cur : Pos}
    (hsl : o.side = "sell") (hlk : lookupPos s.positions o.symbol = some cur) :
    (multiExecuteOrder s o).1 =
      recordFill
        { s with cash := s.cash + o.quantity * o.price,
                 positions :=
                   if cur.quantity - o.quantity ≤ multiEpsilon then
                     delPos s.positions o.symbol
                   else
                     setPos s.positions o.symbol
                       ⟨cur.quantity - o.quantity, cur.avg_price⟩ }
        o := by
  have hb : ¬ o.side = "buy" := by rw [hsl]; decide
  simp [multiExecuteOrder, recordFill, hb, hsl, hlk]

theorem multiExecuteOrder_fst_sell_none {s : TState} {o : Order}
    (hsl : o.side = "sell") (hlk : lookupPos s.positions o.symbol = none) :
    (multiExecuteOrder s o).1 =
      recordFill { s with cash := s.cash + o.quantity * o.price } o := by
  have hb : ¬ o.side = "buy" := by rw [hsl]; decide
  simp [multiExecuteOrder, recordFill, hb, hsl, hlk]

theorem multiExecuteOrder_fst_other {s : TState} {o : Order}
    (hb : ¬ o.side = "buy") (hsl : ¬ o.side = "sell") :
    (multiExecuteOrder s o).1 = recordFill s o := by
  simp [multiExecuteOrder, recordFill, hb, hsl]

theorem virtualPlaceOrder_buy_insufficient {s : TState} {symbol : String}
    {quantity price : ℚ} {order_type : String}
    (h : quantity * price > s.cash) :
    virtualPlaceOrder s symbol "buy" quantity price order_type =
      (s, ⟨false, .insufficientCash⟩) := by
  simp [virtualPlaceOrder, h]

theorem virtualPlaceOrder_sell_insufficient {s : TState} {symbol : String}
    {quantity price : ℚ} {order_type : String}
    (h : quantity > ((lookupPos s.positions symbol).getD ⟨0, 0⟩).quantity) :
    virtualPlaceOrder s symbol "sell" quantity price order_type =
      (s, ⟨false, .insufficientPosition⟩) := by
  simp [virtualPlaceOrder, h]

theorem virtualPlaceOrder_pass {s : TState} {symbol side : String}
    {quantity price : ℚ} {order_type : String}
    (h1 : ¬ (side = "buy" ∧ quantity * price > s.cash))
    (h2 : ¬ (side = "sell" ∧
      quantity > ((lookupPos s.positions symbol).getD ⟨0, 0⟩).quantity)) :
    virtualPlaceOrder s symbol side quantity price order_type =
      if order_type = "market" then
        virtualExecuteOrder s ⟨symbol, side, quantity, price, order_type, "pending"⟩
      else
        ({ s with orders := s.orders ++
            [⟨symbol, side, quantity, price, order_type, "pending"⟩] },
         ⟨true, .orderPlaced⟩) := by
  simp only [virtualPlaceOrder, if_neg h1, if_neg h2]

theorem multiPlaceOrder_below_min {s : TState} {symbol side : String}
    {quantity price : ℚ} {order_type : String}
    (h : quantity * price < multiMinTradeSize) :
    multiPlaceOrder s symbol side quantity price order_type =
      (s, ⟨false, .belowMinimum⟩) := by
  simp [multiPlaceOrder, h]

theorem multiPlaceOrder_buy_insufficient {s : TState} {symbol : String}
    {quantity price : ℚ} {order_type : String}
    (h0 : ¬ quantity * price < multiMinTradeSize) (h : quantity * price > s.cash) :
    multiPlaceOrder s symbol "buy" quantity price order_type =
      (s, ⟨false, .insufficientCash⟩) := by
  simp [multiPlaceOrder, h0, h]

theorem multiPlaceOrder_position_limit {s : TState} {symbol : String}
    {quantity price : ℚ} {order_type : String}
    (h0 : ¬ quantity * price < multiMinTradeSize)
    (h1 : ¬ quantity * price > s.cash)
    (h : multiPositionPct s symbol quantity price > multiMaxPositionPct) :
    multiPlaceOrder s symbol "buy" quantity price order_type =
      (s, ⟨false, .positionLimit⟩) := by
  simp [multiPlaceOrder, h0, h1, h]

theorem multiPlaceOrder_sell_insufficient {s : TState} {symbol : String}
    {quantity price : ℚ} {order_type : String}
    (h0 : ¬ quantity * price < multiMinTradeSize)
    (h : quantity > ((lookupPos s.positions symbol).getD ⟨0, 0⟩).quantity) :
    multiPlaceOrder s symbol "sell" quantity price order_type =
      (s, ⟨false, .insufficientPosition⟩) := by
  simp [multiPlaceOrder, h0, h]

theorem multiPlaceOrder_pass {s : TState} {symbol side : String}
    {quantity price : ℚ} {order_type : String}
    (h0 : ¬ quantity * price < multiMinTradeSize)
    (h1 : ¬ (side = "buy" ∧ quantity * price > s.cash))
    (h2 : ¬ (side = "buy" ∧
      multiPositionPct s symbol quantity price > multiMaxPositionPct))
    (h3 : ¬ (side = "sell" ∧
      quantity > ((lookupPos s.positions symbol).getD ⟨0, 0⟩).quantity)) :
    multiPlaceOrder s symbol side quantity price order_type =
      if order_type = "market" then
        multiExecuteOrder s ⟨symbol, side, quantity, price, order_type, "pending"⟩
      else
        ({ s with orders := s.orders ++
            [⟨symbol, side, quantity, price, order_type, "pending"⟩] },
         ⟨true, .orderPlaced⟩) := by
  simp only [multiPlaceOrder, if_neg h0, if_neg h1, if_neg h2, if_neg h3]

/-! ### Preservation of the no-negative-state invariant -/

@[simp] theorem buyPos_quantity (cur : Pos) (quantity price : ℚ) :
    (buyPos cur quantity price).quantity = cur.quantity + quantity := rfl

/-- A buy fill moves exactly its cost from cash into position book value,
provided quantities are nonnegative. -/
theorem buyPos_value {cur : Pos} {quantity price : ℚ}
    (hcq : 0 ≤ cur.quantity) (hq : 0 ≤ quantity) :
    (buyPos cur quantity price).quantity * (buyPos cur quantity price).avg_price
      = cur.quantity * cur.avg_price + quantity * price := by
  by_cases h : cur.quantity + quantity > 0
  · have hne : cur.quantity + quantity ≠ 0 := ne_of_gt h
    simp only [buyPos, if_pos h, buyPos_quantity]
    rw [mul_comm, div_mul_cancel₀ _ hne]
  · have h0 : cur.quantity + quantity = 0 :=
      le_antisymm (not_lt.mp h) (add_nonneg hcq hq)
    have hc0 : cur.quantity = 0 := by linarith
    have hq0 : quantity = 0 := by linarith
    simp [buyPos, h, hc0, hq0]

theorem recordFill_nonneg {s : TState} {o : Order} (hs : s.NonNeg) :
    (recordFill s o).NonNeg := hs

theorem virtualPlaceOrder_fst_nonneg {s : TState} {symbol side : String}
    {quantity price : ℚ} {order_type : String}
    (hs : s.NonNeg) (hq : 0 ≤ quantity) (hp : 0 ≤ price) :
    (virtualPlaceOrder s symbol side quantity price order_type).1.NonNeg := by
  obtain ⟨h0, h1, h2⟩ := hs
  by_cases hc1 : side = "buy" ∧ quantity * price > s.cash
  · obtain ⟨hb, hover⟩ := hc1
    subst hb
    rw [virtualPlaceOrder_buy_insufficient hover]
    exact ⟨h0, h1, h2⟩
  · by_cases hc2 : side = "sell" ∧
        quantity > ((lookupPos s.positions symbol).getD ⟨0, 0⟩).quantity
    · obtain ⟨hb, hover⟩ := hc2
      subst hb
      rw [virtualPlaceOrder_sell_insufficient hover]
      exact ⟨h0, h1, h2⟩
    · rw [virtualPlaceOrder_pass hc1 hc2]
      by_cases hmkt : order_type = "market"
      · rw [if_pos hmkt]
        by_cases hb : side = "buy"
        · rw [virtualExecuteOrder_fst_buy hb]
          refine recordFill_nonneg ⟨h0, ?_, ?_⟩
          · have hle : quantity * price ≤ s.cash := not_lt.mp (fun hh => hc1 ⟨hb, hh⟩)
            dsimp only
            linarith
          · exact qtyNonNeg_setPos h2
              (by simpa using add_nonneg (lookupPos_getD_qty_nonneg h2 symbol) hq)
        · by_cases hsl : side = "sell"
          · have hle : quantity ≤
                ((lookupPos s.positions symbol).getD ⟨0, 0⟩).quantity := by
              by_contra hgt
              exact hc2 ⟨hsl, not_le.mp hgt⟩
            cases hlk : lookupPos s.positions symbol with
            | none =>
              rw [virtualExecuteOrder_fst_sell_none hsl hlk]
              exact recordFill_nonneg
                ⟨h0, by positivity, h2⟩
            | some cur =>
              have hcq : 0 ≤ cur.quantity := by
                simpa using h2 _ (lookupPos_mem hlk)
              rw [virtualExecuteOrder_fst_sell_some hsl hlk]
              refine recordFill_nonneg ⟨h0, by positivity, ?_⟩
              refine qtyNonNeg_setPos h2 ?_
              rw [hlk] at hle
              simpa using sub_nonneg.mpr hle
          · rw [virtualExecuteOrder_fst_other hb hsl]
            exact recordFill_nonneg ⟨h0, h1, h2⟩
      · rw [if_neg hmkt]
        exact ⟨h0, h1, h2⟩

theorem multiPlaceOrder_fst_nonneg {s : TState} {symbol side : String}
    {quantity price : ℚ} {order_type : String}
    (hs : s.NonNeg) (hq : 0 ≤ quantity) (hp : 0 ≤ price) :
    (multiPlaceOrder s symbol side quantity price order_type).1.NonNeg := by
  obtain ⟨h0, h1, h2⟩ := hs
  by_cases hc0 : quantity * price < multiMinTradeSize
  · rw [multiPlaceOrder_below_min hc0]
    exact ⟨h0, h1, h2⟩
  · by_cases hc1 : side = "buy" ∧ quantity * price > s.cash
    · obtain ⟨hb, hover⟩ := hc1
      subst hb
      rw [multiPlaceOrder_buy_insufficient hc0 hover]
      exact ⟨h0, h1, h2⟩
    · by_cases hc2 : side = "buy" ∧
          multiPositionPct s symbol quantity price > multiMaxPositionPct
      · obtain ⟨hb, hover⟩ := hc2
        subst hb
        rw [multiPlaceOrder_position_limit hc0 (fun hh => hc1 ⟨rfl, hh⟩) hover]
        exact ⟨h0, h1, h2⟩
      · by_cases hc3 : side = "sell" ∧
            quantity > ((lookupPos s.positions symbol).getD ⟨0, 0⟩).quantity
        · obtain ⟨hb, hover⟩ := hc3
          subst hb
          rw [multiPlaceOrder_sell_insufficient hc0 hover]
          exact ⟨h0, h1, h2⟩
        · rw [multiPlaceOrder_pass hc0 hc1 hc2 hc3]
          by_cases hmkt : order_type = "market"
          · rw [if_pos hmkt]
            by_cases hb : side = "buy"
            · rw [multiExecuteOrder_fst_buy hb]
              refine recordFill_nonneg ⟨h0, ?_, ?_⟩
              · have hle : quantity * price ≤ s.cash := not_lt.mp (fun hh => hc1 ⟨hb, hh⟩)
                dsimp only
                linarith
              · exact qtyNonNeg_setPos h2
                  (by simpa using add_nonneg (lookupPos_getD_qty_nonneg h2 symbol) hq)
            · by_cases hsl : side = "sell"
              · have hle : quantity ≤
                    ((lookupPos s.positions symbol).getD ⟨0, 0⟩).quantity := by
                  by_contra hgt
                  exact hc3 ⟨hsl, not_le.mp hgt⟩
                cases hlk : lookupPos s.positions symbol with
                | none =>
                  rw [multiExecuteOrder_fst_sell_none hsl hlk]
                  exact recordFill_nonneg ⟨h0, by positivity, h2⟩
                | some cur =>
                  rw [multiExecuteOrder_fst_sell_some hsl hlk]
                  refine recordFill_nonneg ⟨h0, by positivity, ?_⟩
                  by_cases hdel : cur.quantity - quantity ≤ multiEpsilon
                  · rw [if_pos hdel]
                    exact qtyNonNeg_delPos h2
                  · rw [if_neg hdel]
                    refine qtyNonNeg_setPos h2 ?_
                    rw [hlk] at hle
                    simpa using sub_nonneg.mpr hle
              · rw [multiExecuteOrder_fst_other hb hsl]
                exact recordFill_nonneg ⟨h0, h1, h2⟩
          · rw [if_neg hmkt]
            exact ⟨h0, h1, h2⟩

theorem traderReset_nonneg {s : TState} {c : Option ℚ}
    (hs : 0 ≤ s.starting_cash) (hc : ∀ x, c = some x → 0 ≤ x) :
    (traderReset s c).NonNeg := by
  cases c with
  | none =>
    exact ⟨hs, hs, fun e he => absurd he (List.not_mem_nil e)⟩
  | some x =>
    have hx := hc x rfl
    by_cases hx0 : x ≠ 0
    · refine ⟨?_, ?_, fun e he => absurd he (List.not_mem_nil e)⟩ <;>
        simp [traderReset, hx0, hx]
    · refine ⟨?_, ?_, fun e he => absurd he (List.not_mem_nil e)⟩ <;>
        simp [traderReset, hx0, hs]

theorem virtualStep_nonneg {s : TState} {op : TraderOp}
    (hs : s.NonNeg) (hop : op.WF) : (virtualStep s op).NonNeg := by
  cases op with
  | place symbol side quantity price order_type =>
    exact virtualPlaceOrder_fst_nonneg hs hop.1 hop.2
  | reset c =>
    refine traderReset_nonneg hs.1 ?_
    intro x hx
    cases c with
    | none => cases hx
    | some y => cases hx; exact hop

theorem multiStep_nonneg {s : TState} {op : TraderOp}
    (hs : s.NonNeg) (hop : op.WF) : (multiStep s op).NonNeg := by
  cases op with
  | place symbol side quantity price order_type =>
    exact multiPlaceOrder_fst_nonneg hs hop.1 hop.2
  | reset c =>
    refine traderReset_nonneg hs.1 ?_
    intro x hx
    cases c with
    | none => cases hx
    | some y => cases hx; exact hop

theorem virtualRun_nonneg {s : TState} {ops : List TraderOp}
    (hs : s.NonNeg) (hops : ∀ op ∈ ops, op.WF) : (virtualRun s ops).NonNeg := by
  induction ops generalizing s with
  | nil => exact hs
  | cons op rest ih =>
    exact ih (virtualStep_nonneg hs (hops op (by simp)))
      (fun op' h' => hops op' (by simp [h']))

theorem multiRun_nonneg {s : TState} {ops : List TraderOp}
    (hs : s.NonNeg) (hops : ∀ op ∈ ops, op.WF) : (multiRun s ops).NonNeg := by
  induction ops generalizing s with
  | nil => exact hs
  | cons op rest ih =>
    exact ih (multiStep_nonneg hs (hops op (by simp)))
      (fun op' h' => hops op' (by simp [h']))

/-! ### Preservation of nonnegativity by the broker ledger -/

theorem brokerUpdatePosition_qtyNonNeg {m : PosMap} {instrument : String}
    {quantity price : ℚ} {side : String}
    (hm : QtyNonNeg m) (hq : 0 ≤ quantity) :
    QtyNonNeg (brokerUpdatePosition m instrument quantity price side) := by
  have hcur := lookupPos_getD_qty_nonneg hm instrument
  simp only [brokerUpdatePosition]
  apply qtyNonNeg_setPos hm
  split_ifs with hb h0 hneg
  · exact hq
  · exact add_nonneg hcur hq
  · exact le_refl 0
  · exact not_lt.mp hneg

theorem brokerExecuteMarketOrder_nonneg
    {cash : ℚ} {positions : PosMap} {instrument side : String}
    {spec : QtySpec} {current_price : Option ℚ}
    (hc : 0 ≤ cash) (hm : QtyNonNeg positions) (hs : spec.WF)
    (hp : 0 ≤ current_price.getD 0) :
    0 ≤ (brokerExecuteMarketOrder settingsSlippageBps settingsFeeBps cash
          positions instrument side spec current_price).cash_balance
    ∧ QtyNonNeg (brokerExecuteMarketOrder settingsSlippageBps settingsFeeBps cash
          positions instrument side spec current_price).positions := by
  by_cases hp0 : current_price.getD 0 = 0
  · simp only [brokerExecuteMarketOrder, if_pos hp0]
    exact ⟨hc, hm⟩
  · have hppos : 0 < current_price.getD 0 := lt_of_le_of_ne hp (Ne.symm hp0)
    have hexecb : 0 ≤ current_price.getD 0 + current_price.getD 0 * (5 / 10000) := by
      nlinarith
    have hexecs : 0 ≤ current_price.getD 0 - current_price.getD 0 * (5 / 10000) := by
      nlinarith
    by_cases hb : side = "buy"
    · subst hb
      cases spec with
      | qty q =>
        have hq : 0 ≤ q := hs
        simp only [brokerExecuteMarketOrder, if_neg hp0, settingsSlippageBps,
          settingsFeeBps, eq_self_iff_true, if_true, true_and, ite_true]
        split_ifs with hrej
        · exact ⟨hc, hm⟩
        · push_neg at hrej
          exact ⟨by linarith, brokerUpdatePosition_qtyNonNeg hm hq⟩
      | notional n =>
        have hn : 0 ≤ n := hs
        have hq : 0 ≤ n / (current_price.getD 0 + current_price.getD 0 * (5 / 10000)) :=
          div_nonneg hn hexecb
        simp only [brokerExecuteMarketOrder, if_neg hp0, settingsSlippageBps,
          settingsFeeBps, eq_self_iff_true, if_true, true_and, ite_true]
        split_ifs with hrej
        · exact ⟨hc, hm⟩
        · push_neg at hrej
          exact ⟨by linarith, brokerUpdatePosition_qtyNonNeg hm hq⟩
    · cases spec with
      | qty q =>
        have hq : 0 ≤ q := hs
        have hnot : 0 ≤ q * (current_price.getD 0 - current_price.getD 0 * (5 / 10000)) :=
          mul_nonneg hq hexecs
        simp only [brokerExecuteMarketOrder, if_neg hp0, settingsSlippageBps,
          settingsFeeBps, hb, if_false, false_and, ite_false]
        exact ⟨by nlinarith [hnot, hc], brokerUpdatePosition_qtyNonNeg hm hq⟩
      | notional n =>
        have hn : 0 ≤ n := hs
        have hq : 0 ≤ n / (current_price.getD 0 - current_price.getD 0 * (5 / 10000)) :=
          div_nonneg hn hexecs
        simp only [brokerExecuteMarketOrder, if_neg hp0, settingsSlippageBps,
          settingsFeeBps, hb, if_false, false_and, ite_false]
        exact ⟨by nlinarith [hn, hc], brokerUpdatePosition_qtyNonNeg hm hq⟩

theorem brokerExecuteLimitOrder_nonneg
    {cash : ℚ} {positions : PosMap} {instrument side : String}
    {spec : QtySpec} {limit_price : ℚ} {current_price : Option ℚ}
    (hc : 0 ≤ cash) (hm : QtyNonNeg positions) (hs : spec.WF)
    (hl : 0 ≤ limit_price) :
    0 ≤ (brokerExecuteLimitOrder settingsSlippageBps settingsFeeBps cash
          positions instrument side spec limit_price current_price).cash_balance
    ∧ QtyNonNeg (brokerExecuteLimitOrder settingsSlippageBps settingsFeeBps cash
          positions instrument side spec limit_price current_price).positions := by
  by_cases hp0 : current_price.getD 0 = 0
  · simp only [brokerExecuteLimitOrder, if_pos hp0]
    exact ⟨hc, hm⟩
  · by_cases hfill : (side = "buy" ∧ current_price.getD 0 ≤ limit_price) ∨
        (side = "sell" ∧ current_price.getD 0 ≥ limit_price)
    · by_cases hb : side = "buy"
      · subst hb
        have hle : current_price.getD 0 ≤ limit_price := by
          rcases hfill with ⟨-, h⟩ | ⟨habs, -⟩
          · exact h
          · exact absurd habs (by decide)
        cases spec with
        | qty q =>
          have hq : 0 ≤ q := hs
          simp only [brokerExecuteLimitOrder, if_neg hp0, hle, settingsFeeBps,
            eq_self_iff_true, if_true, true_and, true_or, not_true, if_false,
            ite_true, ite_false]
          split_ifs with hrej
          · exact ⟨hc, hm⟩
          · push_neg at hrej
            exact ⟨by linarith, brokerUpdatePosition_qtyNonNeg hm hq⟩
        | notional n =>
          have hn : 0 ≤ n := hs
          have hq : 0 ≤ n / limit_price := div_nonneg hn hl
          simp only [brokerExecuteLimitOrder, if_neg hp0, hle, settingsFeeBps,
            eq_self_iff_true, if_true, true_and, true_or, not_true, if_false,
            ite_true, ite_false]
          split_ifs with hrej
          · exact ⟨hc, hm⟩
          · push_neg at hrej
            exact ⟨by linarith, brokerUpdatePosition_qtyNonNeg hm hq⟩
      · rcases hfill with ⟨habs, -⟩ | ⟨hsl, hge⟩
        · exact absurd habs hb
        subst hsl
        have hge' : limit_price ≤ current_price.getD 0 := hge
        cases spec with
        | qty q =>
          have hq : 0 ≤ q := hs
          have hnot : 0 ≤ q * limit_price := mul_nonneg hq hl
          simp only [brokerExecuteLimitOrder, if_neg hp0, hge', settingsFeeBps,
            show ("sell" : String) ≠ "buy" by decide, ge_iff_le,
            eq_self_iff_true, if_true, true_and, true_or, false_and, false_or,
            not_true, if_false, ite_true, ite_false]
          exact ⟨by nlinarith [hnot, hc], brokerUpdatePosition_qtyNonNeg hm hq⟩
        | notional n =>
          have hn : 0 ≤ n := hs
          have hq : 0 ≤ n / limit_price := div_nonneg hn hl
          simp only [brokerExecuteLimitOrder, if_neg hp0, hge', settingsFeeBps,
            show ("sell" : String) ≠ "buy" by decide, ge_iff_le,
            eq_self_iff_true, if_true, true_and, true_or, false_and, false_or,
            not_true, if_false, ite_true, ite_false]
          exact ⟨by nlinarith [hn, hc], brokerUpdatePosition_qtyNonNeg hm hq⟩
    · simp only [brokerExecuteLimitOrder, if_neg hp0, if_pos hfill]
      exact ⟨hc, hm⟩

theorem brokerStep_nonneg {s : BState} {op : BrokerOp}
    (hs : s.NonNeg) (hop : op.WF) : (brokerStep s op).NonNeg := by
  cases op with
  | market instrument side spec current_price =>
    exact brokerExecuteMarketOrder_nonneg hs.1 hs.2 hop.1 hop.2
  | limit instrument side spec limit_price current_price =>
    exact brokerExecuteLimitOrder_nonneg hs.1 hs.2 hop.1 hop.2.1
  | cancel => exact hs

theorem brokerRun_nonneg {s : BState} {ops : List BrokerOp}
    (hs : s.NonNeg) (hops : ∀ op ∈ ops, op.WF) : (brokerRun s ops).NonNeg := by
  induction ops generalizing s with
  | nil => exact hs
  | cons op rest ih =>
    exact ih (brokerStep_nonneg hs (hops op (by simp)))
      (fun op' h' => hops op' (by simp [h']))

/-! ### Conservation of value over fill sequences -/

@[simp] theorem recordFill_cash (s : TState) (o : Order) :
    (recordFill s o).cash = s.cash := rfl

@[simp] theorem recordFill_positions (s : TState) (o : Order) :
    (recordFill s o).positions = s.positions := rfl

@[simp] theorem recordFill_starting_cash (s : TState) (o : Order) :
    (recordFill s o).starting_cash = s.starting_cash := rfl

theorem virtualStep_conservation {s : TState} {symbol side : String}
    {quantity price : ℚ} {order_type : String}
    (hpos : QtyNonNeg s.positions) (hq : 0 ≤ quantity) :
    (virtualStep s (.place symbol side quantity price order_type)).cash
        + posValue (virtualStep s (.place symbol side quantity price order_type)).positions
      = s.cash + posValue s.positions
        + realizedStep s (.place symbol side quantity price order_type) := by
  show (virtualPlaceOrder s symbol side quantity price order_type).1.cash
      + posValue (virtualPlaceOrder s symbol side quantity price order_type).1.positions
    = _
  by_cases hc1 : side = "buy" ∧ quantity * price > s.cash
  · obtain ⟨hb, hover⟩ := hc1
    subst hb
    rw [virtualPlaceOrder_buy_insufficient hover]
    simp [realizedStep]
  · by_cases hc2 : side = "sell" ∧
        quantity > ((lookupPos s.positions symbol).getD ⟨0, 0⟩).quantity
    · obtain ⟨hb, hover⟩ := hc2
      subst hb
      rw [virtualPlaceOrder_sell_insufficient hover]
      have : ¬ quantity ≤ heldQty s symbol := not_le.mpr hover
      simp [realizedStep, this]
    · rw [virtualPlaceOrder_pass hc1 hc2]
      by_cases hmkt : order_type = "market"
      · rw [if_pos hmkt]
        by_cases hb : side = "buy"
        · rw [virtualExecuteOrder_fst_buy hb]
          have hc := posValue_setPos s.positions symbol
            (buyPos ((lookupPos s.positions symbol).getD ⟨0, 0⟩) quantity price)
          have hv := @buyPos_value ((lookupPos s.positions symbol).getD ⟨0, 0⟩)
            quantity price (lookupPos_getD_qty_nonneg hpos symbol) hq
          have hside : ¬ (side = "sell" ∧ order_type = "market" ∧
              quantity ≤ heldQty s symbol) := by
            rintro ⟨hsl, -⟩
            rw [hb] at hsl
            exact absurd hsl (by decide)
          simp only [realizedStep, if_neg hside, recordFill_cash, recordFill_positions]
          linarith
        · by_cases hsl : side = "sell"
          · have hle : quantity ≤
                ((lookupPos s.positions symbol).getD ⟨0, 0⟩).quantity :=
              not_lt.mp (fun hgt => hc2 ⟨hsl, hgt⟩)
            have hside : side = "sell" ∧ order_type = "market" ∧
                quantity ≤ heldQty s symbol := ⟨hsl, hmkt, hle⟩
            cases hlk : lookupPos s.positions symbol with
            | none =>
              rw [virtualExecuteOrder_fst_sell_none hsl hlk]
              simp only [realizedStep, if_pos hside, recordFill_cash,
                recordFill_positions, heldAvg, hlk]
              simp only [Option.getD_none]
              ring_nf
            | some cur =>
              rw [virtualExecuteOrder_fst_sell_some hsl hlk]
              have hc := posValue_setPos s.positions symbol
                ⟨cur.quantity - quantity, cur.avg_price⟩
              rw [hlk] at hc
              simp only [realizedStep, if_pos hside, recordFill_cash,
                recordFill_positions, heldAvg, hlk]
              simp only [Option.getD_some] at hc ⊢
              nlinarith [hc]
          · rw [virtualExecuteOrder_fst_other hb hsl]
            have hside : ¬ (side = "sell" ∧ order_type = "market" ∧
                quantity ≤ heldQty s symbol) := fun h => hsl h.1
            simp [realizedStep, if_neg hside]
      · rw [if_neg hmkt]
        have hside : ¬ (side = "sell" ∧ order_type = "market" ∧
            quantity ≤ heldQty s symbol) := fun h => hmkt h.2.1
        simp [realizedStep, if_neg hside]

theorem virtualRun_conservation {s : TState} {ops : List TraderOp}
    (hs : s.NonNeg) (hops : ∀ op ∈ ops, op.WF ∧ op.IsPlace) :
    (virtualRun s ops).cash + posValue (virtualRun s ops).positions
      = s.cash + posValue s.positions + realizedTotal s ops := by
  induction ops generalizing s with
  | nil => simp [virtualRun, realizedTotal]
  | cons op rest ih =>
    obtain ⟨hwf, hpl⟩ := hops op (by simp)
    have hstep : (virtualStep s op).NonNeg := virtualStep_nonneg hs hwf
    have hrest : ∀ op' ∈ rest, op'.WF ∧ op'.IsPlace :=
      fun op' h' => hops op' (by simp [h'])
    have hrun : virtualRun s (op :: rest) = virtualRun (virtualStep s op) rest := rfl
    rw [hrun]
    have := ih hstep hrest
    cases op with
    | place symbol side quantity price order_type =>
      have hcons := @virtualStep_conservation s symbol side quantity price
        order_type hs.2.2 hwf.1
      rw [this]
      show _ = s.cash + posValue s.positions +
        realizedTotal s (.place symbol side quantity price order_type :: rest)
      rw [realizedTotal]
      linarith
    | reset c => exact absurd hpl (by simp [TraderOp.IsPlace])

/-! ### Totality of the snapshot computations -/

theorem virtualRows_isSome (prices : PriceMap) (m : PosMap) :
    (virtualRows prices m).isSome := by
  induction m with
  | nil => simp [virtualRows]
  | cons f rest ih =>
    obtain ⟨sym, pos⟩ := f
    obtain ⟨rows, hrows⟩ := Option.isSome_iff_exists.mp ih
    by_cases hq : pos.quantity ≠ 0
    · by_cases ha : pos.avg_price > 0
      · have hne : pos.quantity * pos.avg_price ≠ 0 := mul_ne_zero hq (ne_of_gt ha)
        simp [virtualRows, hq, ha, pydiv, hne, hrows]
      · simp [virtualRows, hq, ha, hrows]
    · simp only [virtualRows, if_neg hq]
      exact ih

theorem multiRows_isSome (prices : PriceMap) (m : PosMap) :
    (multiRows prices m).isSome := by
  induction m with
  | nil => simp [multiRows]
  | cons f rest ih =>
    obtain ⟨sym, pos⟩ := f
    obtain ⟨rows, hrows⟩ := Option.isSome_iff_exists.mp ih
    cases hlp : lookupPrice prices sym with
    | none => simp only [multiRows, hlp]; exact ih
    | some price =>
      by_cases hq : pos.quantity ≠ 0
      · by_cases ha : pos.avg_price > 0
        · have hne : pos.quantity * pos.avg_price ≠ 0 := mul_ne_zero hq (ne_of_gt ha)
          simp [multiRows, hlp, hq, ha, pydiv, hne, hrows]
        · simp [multiRows, hlp, hq, ha, hrows]
      · simp only [multiRows, hlp, if_neg hq]
        exact ih

theorem hhiTerms_isSome {total_value : ℚ} (h : total_value ≠ 0)
    (l : List (String × ℚ)) : (hhiTerms total_value l).isSome := by
  induction l with
  | nil => simp [hhiTerms]
  | cons e rest ih =>
    obtain ⟨ws, hws⟩ := Option.isSome_iff_exists.mp ih
    simp [hhiTerms, pydiv, h, hws]

theorem diversificationScore_isSome (position_values : List (String × ℚ))
    (total_value : ℚ) : (diversificationScore position_values total_value).isSome := by
  by_cases h : position_values = [] ∨ total_value = 0
  · simp [diversificationScore, h]
  · push_neg at h
    obtain ⟨ts, hts⟩ := Option.isSome_iff_exists.mp (hhiTerms_isSome h.2 position_values)
    simp [diversificationScore, h.1, h.2, hts]

theorem multiGetPortfolio_isSome (s : TState) (prices : PriceMap) :
    (multiGetPortfolio s prices).isSome := by
  obtain ⟨rows, hrows⟩ := Option.isSome_iff_exists.mp (multiRows_isSome prices s.positions)
  obtain ⟨d, hd⟩ := Option.isSome_iff_exists.mp
    (diversificationScore_isSome (rows.map (fun r => (r.symbol, r.market_value)))
      ((rows.map MPositionView.market_value).sum))
  by_cases hst : s.starting_cash > 0
  · have hne : s.starting_cash ≠ 0 := ne_of_gt hst
    simp [multiGetPortfolio, hrows, hst, pydiv, hne, hd]
  · simp [multiGetPortfolio, hrows, hst, hd]

theorem multiGetPortfolio_pct_of_zero_start {s : TState} (prices : PriceMap)
    (h : s.starting_cash = 0) :
    (multiGetPortfolio s prices).map MPortfolio.total_pnl_pct = some 0 := by
  obtain ⟨rows, hrows⟩ := Option.isSome_iff_exists.mp (multiRows_isSome prices s.positions)
  obtain ⟨d, hd⟩ := Option.isSome_iff_exists.mp
    (diversificationScore_isSome (rows.map (fun r => (r.symbol, r.market_value)))
      ((rows.map MPositionView.market_value).sum))
  have hst : ¬ s.starting_cash > 0 := by rw [h]; exact lt_irrefl 0
  simp [multiGetPortfolio, hrows, hst, hd]

theorem virtualGetPortfolio_isSome_of_start_ne_zero {s : TState} (prices : PriceMap)
    (h : s.starting_cash ≠ 0) : (virtualGetPortfolio s prices).isSome := by
  obtain ⟨rows, hrows⟩ := Option.isSome_iff_exists.mp (virtualRows_isSome prices s.positions)
  simp [virtualGetPortfolio, hrows, pydiv, h]

/-! ### Evaluating the binary64 rounding model -/

theorem roundHalfEven_of_lt {x : ℚ} {n : ℤ} (h1 : (n:ℚ) ≤ x)
    (h2 : x < (n:ℚ) + 1/2) : roundHalfEven x = n := by
  have hf : ⌊x⌋ = n := by
    rw [Int.floor_eq_iff]
    exact ⟨h1, by linarith⟩
  simp only [roundHalfEven]
  rw [hf, if_pos (show x - (n:ℚ) < 1/2 by linarith)]

theorem roundHalfEven_of_gt {x : ℚ} {n : ℤ} (h1 : (n:ℚ) + 1/2 < x)
    (h2 : x < (n:ℚ) + 1) : roundHalfEven x = n + 1 := by
  have hf : ⌊x⌋ = n := by
    rw [Int.floor_eq_iff]
    exact ⟨by linarith, h2⟩
  simp only [roundHalfEven]
  rw [hf, if_neg (show ¬ x - (n:ℚ) < 1/2 by linarith),
    if_pos (show (1:ℚ)/2 < x - (n:ℚ) by linarith)]

theorem roundHalfEven_of_int (n : ℤ) : roundHalfEven (n:ℚ) = n :=
  roundHalfEven_of_lt (le_refl _) (by norm_num)

theorem roundHalfEven_of_tie_odd {n : ℤ} (h : n % 2 = 1) :
    roundHalfEven ((n:ℚ) + 1/2) = n + 1 := by
  have hf : ⌊(n:ℚ) + 1/2⌋ = n := by
    rw [Int.floor_eq_iff]
    constructor
    · linarith
    · linarith
  simp only [roundHalfEven]
  rw [hf, if_neg (show ¬ (n:ℚ) + 1/2 - (n:ℚ) < 1/2 by norm_num),
    if_neg (show ¬ (1:ℚ)/2 < (n:ℚ) + 1/2 - (n:ℚ) by norm_num),
    if_neg (show ¬ n % 2 = 0 by omega)]

theorem int_log_two_eq {r : ℚ} {e : ℤ} (hr : 0 < r)
    (h1 : (2:ℚ) ^ e ≤ r) (h2 : r < 2 ^ (e + 1)) : Int.log 2 r = e := by
  have hle : e ≤ Int.log 2 r := (Int.zpow_le_iff_le_log one_lt_two hr).mp h1
  have hlt : Int.log 2 r < e + 1 := (Int.lt_zpow_iff_log_lt one_lt_two hr).mp h2
  omega

theorem roundDouble_eq {x : ℚ} {e m : ℤ} (hx : 0 < x)
    (h1 : (2:ℚ) ^ e ≤ x) (h2 : x < 2 ^ (e + 1))
    (hm : roundHalfEven (x * 2 ^ ((52:ℤ) - e)) = m) :
    roundDouble x = (m:ℚ) * 2 ^ (e - 52) := by
  have hlog : Int.log 2 |x| = e := by
    rw [abs_of_pos hx]
    exact int_log_two_eq hx h1 h2
  simp only [roundDouble]
  rw [if_neg (ne_of_gt hx), hlog, hm]

theorem rd_zero : roundDouble 0 = 0 := by
  simp [roundDouble]

/-- The float literal `0.1`: the binary64 value nearest 1/10. -/
theorem rd_tenth : roundDouble (1/10) = 3602879701896397 / 2 ^ 55 := by
  have hm : roundHalfEven ((1/10 : ℚ) * 2 ^ ((52:ℤ) - (-4))) = 7205759403792794 := by
    rw [show ((1:ℚ)/10) * 2 ^ ((52:ℤ) - (-4)) = 36028797018963968/5 by norm_num,
      show (7205759403792794 : ℤ) = 7205759403792793 + 1 by norm_num]
    exact roundHalfEven_of_gt (by norm_num) (by norm_num)
  rw [roundDouble_eq (by norm_num) (by norm_num) (by norm_num) hm]
  norm_num

/-- The float literal `0.2`: the binary64 value nearest 2/10. -/
theorem rd_fifth : roundDouble (2/10) = 3602879701896397 / 2 ^ 54 := by
  have hm : roundHalfEven ((2/10 : ℚ) * 2 ^ ((52:ℤ) - (-3))) = 7205759403792794 := by
    rw [show ((2:ℚ)/10) * 2 ^ ((52:ℤ) - (-3)) = 36028797018963968/5 by norm_num,
      show (7205759403792794 : ℤ) = 7205759403792793 + 1 by norm_num]
    exact roundHalfEven_of_gt (by norm_num) (by norm_num)
  rw [roundDouble_eq (by norm_num) (by norm_num) (by norm_num) hm]
  norm_num

theorem rd_d1 : roundDouble (3602879701896397 / 2 ^ 55) = 3602879701896397 / 2 ^ 55 := by
  have hm : roundHalfEven ((3602879701896397 / 2 ^ 55 : ℚ) * 2 ^ ((52:ℤ) - (-4)))
      = 7205759403792794 := by
    rw [show ((3602879701896397 : ℚ) / 2 ^ 55) * 2 ^ ((52:ℤ) - (-4))
        = ((7205759403792794 : ℤ) : ℚ) by push_cast; norm_num]
    exact roundHalfEven_of_int _
  rw [roundDouble_eq (by norm_num) (by norm_num) (by norm_num) hm]
  norm_num

theorem rd_d2 : roundDouble (3602879701896397 / 2 ^ 54) = 3602879701896397 / 2 ^ 54 := by
  have hm : roundHalfEven ((3602879701896397 / 2 ^ 54 : ℚ) * 2 ^ ((52:ℤ) - (-3)))
      = 7205759403792794 := by
    rw [show ((3602879701896397 : ℚ) / 2 ^ 54) * 2 ^ ((52:ℤ) - (-3))
        = ((7205759403792794 : ℤ) : ℚ) by push_cast; norm_num]
    exact roundHalfEven_of_int _
  rw [roundDouble_eq (by norm_num) (by norm_num) (by norm_num) hm]
  norm_num

theorem rd_one : roundDouble 1 = 1 := by
  have hm : roundHalfEven ((1 : ℚ) * 2 ^ ((52:ℤ) - 0)) = 4503599627370496 := by
    rw [show (1 : ℚ) * 2 ^ ((52:ℤ) - 0) = ((4503599627370496 : ℤ) : ℚ) by
      push_cast; norm_num]
    exact roundHalfEven_of_int _
  rw [roundDouble_eq (by norm_num) (by norm_num) (by norm_num) hm]
  norm_num

theorem rd_two : roundDouble 2 = 2 := by
  have hm : roundHalfEven ((2 : ℚ) * 2 ^ ((52:ℤ) - 1)) = 4503599627370496 := by
    rw [show (2 : ℚ) * 2 ^ ((52:ℤ) - 1) = ((4503599627370496 : ℤ) : ℚ) by
      push_cast; norm_num]
    exact roundHalfEven_of_int _
  rw [roundDouble_eq (by norm_num) (by norm_num) (by norm_num) hm]
  norm_num

/-- `0.1 + 0.2` in binary64: the exact sum of the two stored doubles lies
exactly halfway between two representable values, and ties-to-even rounds it
UP to 0.30000000000000004 — the first drift of the counterexample. -/
theorem rd_d1d2 : roundDouble (3602879701896397 / 2 ^ 55 + 3602879701896397 / 2 ^ 54)
    = 1351079888211149 / 2 ^ 52 := by
  have hm : roundHalfEven
      ((3602879701896397 / 2 ^ 55 + 3602879701896397 / 2 ^ 54 : ℚ)
        * 2 ^ ((52:ℤ) - (-2))) = 5404319552844596 := by
    rw [show (3602879701896397 / 2 ^ 55 + 3602879701896397 / 2 ^ 54 : ℚ)
          * 2 ^ ((52:ℤ) - (-2)) = ((5404319552844595 : ℤ) : ℚ) + 1/2 by
        push_cast; norm_num,
      show (5404319552844596 : ℤ) = 5404319552844595 + 1 by norm_num]
    exact roundHalfEven_of_tie_odd (by norm_num)
  rw [roundDouble_eq (by norm_num) (by norm_num) (by norm_num) hm]
  norm_num

theorem rd_halfT : roundDouble ((1351079888211149 / 2 ^ 52 : ℚ) / 2)
    = 1351079888211149 / 2 ^ 53 := by
  have hm : roundHalfEven (((1351079888211149 / 2 ^ 52 : ℚ) / 2)
      * 2 ^ ((52:ℤ) - (-3))) = 5404319552844596 := by
    rw [show ((1351079888211149 / 2 ^ 52 : ℚ) / 2) * 2 ^ ((52:ℤ) - (-3))
        = ((5404319552844596 : ℤ) : ℚ) by push_cast; norm_num]
    exact roundHalfEven_of_int _
  rw [roundDouble_eq (by norm_num) (by norm_num) (by norm_num) hm]
  norm_num

theorem rd_cost45 : roundDouble ((3602879701896397 / 2 ^ 55 : ℚ) * 45000) = 4500 := by
  have hm : roundHalfEven (((3602879701896397 / 2 ^ 55 : ℚ) * 45000)
      * 2 ^ ((52:ℤ) - 12)) = 4947802324992000 := by
    rw [show ((3602879701896397 / 2 ^ 55 : ℚ) * 45000) * 2 ^ ((52:ℤ) - 12)
        = 20266198323167233125/4096 by norm_num]
    exact roundHalfEven_of_lt (by norm_num) (by norm_num)
  rw [roundDouble_eq (by norm_num) (by norm_num) (by norm_num) hm]
  norm_num

theorem rd_avg45 : roundDouble ((4500 : ℚ) / (3602879701896397 / 2 ^ 55)) = 45000 := by
  have hm : roundHalfEven (((4500 : ℚ) / (3602879701896397 / 2 ^ 55))
      * 2 ^ ((52:ℤ) - 15)) = 6184752906240000 := by
    rw [show ((4500 : ℚ) / (3602879701896397 / 2 ^ 55)) * 2 ^ ((52:ℤ) - 15)
        = 22282920707136844948184236032000/3602879701896397 by norm_num,
      show (6184752906240000 : ℤ) = 6184752906239999 + 1 by norm_num]
    exact roundHalfEven_of_gt (by norm_num) (by norm_num)
  rw [roundDouble_eq (by norm_num) (by norm_num) (by norm_num) hm]
  norm_num

theorem rd_cost47 : roundDouble ((3602879701896397 / 2 ^ 55 : ℚ) * 47000) = 4700 := by
  have hm : roundHalfEven (((3602879701896397 / 2 ^ 55 : ℚ) * 47000)
      * 2 ^ ((52:ℤ) - 12)) = 5167704650547200 := by
    rw [show ((3602879701896397 / 2 ^ 55 : ℚ) * 47000) * 2 ^ ((52:ℤ) - 12)
        = 21166918248641332375/4096 by norm_num]
    exact roundHalfEven_of_lt (by norm_num) (by norm_num)
  rw [roundDouble_eq (by norm_num) (by norm_num) (by norm_num) hm]
  norm_num

theorem rd_d1d1 : roundDouble (3602879701896397 / 2 ^ 55 + 3602879701896397 / 2 ^ 55)
    = 3602879701896397 / 2 ^ 54 := by
  have hm : roundHalfEven
      ((3602879701896397 / 2 ^ 55 + 3602879701896397 / 2 ^ 55 : ℚ)
        * 2 ^ ((52:ℤ) - (-3))) = 7205759403792794 := by
    rw [show (3602879701896397 / 2 ^ 55 + 3602879701896397 / 2 ^ 55 : ℚ)
        * 2 ^ ((52:ℤ) - (-3)) = ((7205759403792794 : ℤ) : ℚ) by push_cast; norm_num]
    exact roundHalfEven_of_int _
  rw [roundDouble_eq (by norm_num) (by norm_num) (by norm_num) hm]
  norm_num

theorem rd_9200 : roundDouble (9200 : ℚ) = 9200 := by
  have hm : roundHalfEven ((9200 : ℚ) * 2 ^ ((52:ℤ) - 13)) = 5057753487769600 := by
    rw [show (9200 : ℚ) * 2 ^ ((52:ℤ) - 13) = ((5057753487769600 : ℤ) : ℚ) by
      push_cast; norm_num]
    exact roundHalfEven_of_int _
  rw [roundDouble_eq (by norm_num) (by norm_num) (by norm_num) hm]
  norm_num

theorem rd_4500 : roundDouble (4500 : ℚ) = 4500 := by
  have hm : roundHalfEven ((4500 : ℚ) * 2 ^ ((52:ℤ) - 12)) = 4947802324992000 := by
    rw [show (4500 : ℚ) * 2 ^ ((52:ℤ) - 12) = ((4947802324992000 : ℤ) : ℚ) by
      push_cast; norm_num]
    exact roundHalfEven_of_int _
  rw [roundDouble_eq (by norm_num) (by norm_num) (by norm_num) hm]
  norm_num

theorem rd_avg46 : roundDouble ((9200 : ℚ) / (3602879701896397 / 2 ^ 54)) = 46000 := by
  have hm : roundHalfEven (((9200 : ℚ) / (3602879701896397 / 2 ^ 54))
      * 2 ^ ((52:ℤ) - 15)) = 6322191859712000 := by
    rw [show ((9200 : ℚ) / (3602879701896397 / 2 ^ 54)) * 2 ^ ((52:ℤ) - 15)
        = 22778096722850997058143885721600/3602879701896397 by norm_num,
      show (6322191859712000 : ℤ) = 6322191859711999 + 1 by norm_num]
    exact roundHalfEven_of_gt (by norm_num) (by norm_num)
  rw [roundDouble_eq (by norm_num) (by norm_num) (by norm_num) hm]
  norm_num

/-- First buy of the drift trace: buy 1 unit at the float 0.1. -/
theorem buyPosFloat_drift_step1 :
    buyPosFloat ⟨0, 0⟩ 1 (3602879701896397 / 2 ^ 55)
      = ⟨1, 3602879701896397 / 2 ^ 55⟩ := by
  simp only [buyPosFloat, fmul, fadd, fdiv]
  rw [show (0:ℚ) * 0 = 0 by norm_num, rd_zero,
    show (1:ℚ) * (3602879701896397 / 2 ^ 55) = 3602879701896397 / 2 ^ 55 by norm_num,
    rd_d1,
    show (0:ℚ) + 3602879701896397 / 2 ^ 55 = 3602879701896397 / 2 ^ 55 by norm_num,
    rd_d1,
    show (0:ℚ) + 1 = 1 by norm_num, rd_one,
    if_pos (show (1:ℚ) > 0 by norm_num),
    show (3602879701896397 / 2 ^ 55 : ℚ) / 1 = 3602879701896397 / 2 ^ 55 by norm_num,
    rd_d1]

/-- Second buy of the drift trace: buy 1 unit at the float 0.2; the computed
average is 0.15000000000000002220446049250313..., not 0.15. -/
theorem buyPosFloat_drift_step2 :
    buyPosFloat ⟨1, 3602879701896397 / 2 ^ 55⟩ 1 (3602879701896397 / 2 ^ 54)
      = ⟨2, 1351079888211149 / 2 ^ 53⟩ := by
  simp only [buyPosFloat, fmul, fadd, fdiv]
  rw [show (1:ℚ) * (3602879701896397 / 2 ^ 54) = 3602879701896397 / 2 ^ 54 by norm_num,
    rd_d2,
    show (1:ℚ) * (3602879701896397 / 2 ^ 55) = 3602879701896397 / 2 ^ 55 by norm_num,
    rd_d1, rd_d1d2,
    show (1:ℚ) + 1 = 2 by norm_num, rd_two,
    if_pos (show (2:ℚ) > 0 by norm_num),
    rd_halfT]

/-- First buy of the spec scenario under float arithmetic: 0.1 BTC at 45000
rounds back to a clean position (qty float(0.1), avg exactly 45000). -/
theorem buyPosFloat_scenario_step1 :
    buyPosFloat ⟨0, 0⟩ (3602879701896397 / 2 ^ 55) 45000
      = ⟨3602879701896397 / 2 ^ 55, 45000⟩ := by
  simp only [buyPosFloat, fmul, fadd, fdiv]
  rw [show (0:ℚ) * 0 = 0 by norm_num, rd_zero, rd_cost45,
    show (0:ℚ) + 4500 = 4500 by norm_num, rd_4500,
    show (0:ℚ) + 3602879701896397 / 2 ^ 55 = 3602879701896397 / 2 ^ 55 by norm_num,
    rd_d1,
    if_pos (show (3602879701896397 / 2 ^ 55 : ℚ) > 0 by norm_num),
    rd_avg45]

/-- Second buy of the spec scenario under float arithmetic: 0.1 BTC at 47000
yields avg_price exactly 46000 and quantity float(0.2) — the spec's example
is drift-free even in binary floats. -/
theorem buyPosFloat_scenario_step2 :
    buyPosFloat ⟨3602879701896397 / 2 ^ 55, 45000⟩ (3602879701896397 / 2 ^ 55) 47000
      = ⟨3602879701896397 / 2 ^ 54, 46000⟩ := by
  simp only [buyPosFloat, fmul, fadd, fdiv]
  rw [rd_cost47, rd_cost45,
    show (4500:ℚ) + 4700 = 9200 by norm_num, rd_9200, rd_d1d1,
    if_pos (show (3602879701896397 / 2 ^ 54 : ℚ) > 0 by norm_num),
    rd_avg46]

/-! ### Claims -/

/-- C1 (corrected).  As stated the claim is false: none of the three ledgers
validates order signs, so a buy with negative quantity creates a position with
negative quantity (see the counterexample).  Amended: for call sequences whose
quantities, notionals, prices and reset amounts are nonnegative, every
reachable state of both in-memory traders (place_order / reset_portfolio) and
of the broker account ledger (market and limit order execution plus
cancellation) has `cash >= 0` and every position quantity `>= 0`; and,
unconditionally, a buy whose required cash `quantity * price` exceeds the
available balance is rejected with the insufficient-cash result and returns
the state unchanged (in `MultiCryptoTrader` provided the trade value is not
already below the minimum trade size, which is checked first). -/
theorem C1_no_negative_state_amended :
    (∀ (start : ℚ) (ops : List TraderOp), 0 ≤ start → (∀ op ∈ ops, op.WF) →
        0 ≤ (virtualRun (TState.fresh start) ops).cash ∧
        ∀ e ∈ (virtualRun (TState.fresh start) ops).positions, 0 ≤ (e.2).quantity)
  ∧ (∀ (start : ℚ) (ops : List TraderOp), 0 ≤ start → (∀ op ∈ ops, op.WF) →
        0 ≤ (multiRun (TState.fresh start) ops).cash ∧
        ∀ e ∈ (multiRun (TState.fresh start) ops).positions, 0 ≤ (e.2).quantity)
  ∧ (∀ (start : ℚ) (ops : List BrokerOp), 0 ≤ start → (∀ op ∈ ops, op.WF) →
        0 ≤ (brokerRun ⟨start, []⟩ ops).cash ∧
        ∀ e ∈ (brokerRun ⟨start, []⟩ ops).positions, 0 ≤ (e.2).quantity)
  ∧ (∀ (s : TState) (symbol : String) (quantity price : ℚ) (order_type : String),
        quantity * price > s.cash →
        virtualPlaceOrder s symbol "buy" quantity price order_type =
          (s, ⟨false, .insufficientCash⟩))
  ∧ (∀ (s : TState) (symbol : String) (quantity price : ℚ) (order_type : String),
        ¬ quantity * price < multiMinTradeSize → quantity * price > s.cash →
        multiPlaceOrder s symbol "buy" quantity price order_type =
          (s, ⟨false, .insufficientCash⟩)) := by
  refine ⟨?_, ?_, ?_, ?_, ?_⟩
  · intro start ops h0 hops
    have h := virtualRun_nonneg (s := TState.fresh start)
      ⟨h0, h0, fun e he => absurd he (List.not_mem_nil e)⟩ hops
    exact ⟨h.2.1, h.2.2⟩
  · intro start ops h0 hops
    have h := multiRun_nonneg (s := TState.fresh start)
      ⟨h0, h0, fun e he => absurd he (List.not_mem_nil e)⟩ hops
    exact ⟨h.2.1, h.2.2⟩
  · intro start ops h0 hops
    have h := brokerRun_nonneg (s := ⟨start, []⟩)
      ⟨h0, fun e he => absurd he (List.not_mem_nil e)⟩ hops
    exact ⟨h.1, h.2⟩
  · intro s symbol quantity price order_type h
    exact virtualPlaceOrder_buy_insufficient h
  · intro s symbol quantity price order_type h0 h
    exact multiPlaceOrder_buy_insufficient h0 h

/-- C1 witness: the amended theorem applied to a one-buy trace on a fresh
$10,000 account of each trader, and to an over-budget buy of $200 against
$100 cash. -/
theorem C1_no_negative_state_witness :
    ((0:ℚ) ≤ 10000)
  ∧ (∀ op ∈ [TraderOp.place "BTC" "buy" (1/10) 45000 "market"], op.WF)
  ∧ (0 ≤ (virtualRun (TState.fresh 10000)
          [TraderOp.place "BTC" "buy" (1/10) 45000 "market"]).cash
      ∧ ∀ e ∈ (virtualRun (TState.fresh 10000)
          [TraderOp.place "BTC" "buy" (1/10) 45000 "market"]).positions,
          0 ≤ (e.2).quantity)
  ∧ (0 ≤ (multiRun (TState.fresh 10000)
          [TraderOp.place "BTC" "buy" (1/10) 45000 "market"]).cash
      ∧ ∀ e ∈ (multiRun (TState.fresh 10000)
          [TraderOp.place "BTC" "buy" (1/10) 45000 "market"]).positions,
          0 ≤ (e.2).quantity)
  ∧ (∀ op ∈ [BrokerOp.market "BTC" "buy" (QtySpec.qty (1/10)) (some 45000)], op.WF)
  ∧ (0 ≤ (brokerRun ⟨10000, []⟩
          [BrokerOp.market "BTC" "buy" (QtySpec.qty (1/10)) (some 45000)]).cash
      ∧ ∀ e ∈ (brokerRun ⟨10000, []⟩
          [BrokerOp.market "BTC" "buy" (QtySpec.qty (1/10)) (some 45000)]).positions,
          0 ≤ (e.2).quantity)
  ∧ ((1:ℚ) * 200 > (TState.fresh 100).cash)
  ∧ virtualPlaceOrder (TState.fresh 100) "BTC" "buy" 1 200 "market"
      = (TState.fresh 100, ⟨false, .insufficientCash⟩)
  ∧ multiPlaceOrder (TState.fresh 100) "BTC" "buy" 1 200 "market"
      = (TState.fresh 100, ⟨false, .insufficientCash⟩) := by
  have h := C1_no_negative_state_amended
  have hwf : ∀ op ∈ [TraderOp.place "BTC" "buy" (1/10) 45000 "market"], op.WF := by
    intro op hop
    simp only [List.mem_singleton] at hop
    subst hop
    exact ⟨by norm_num, by norm_num⟩
  have hwfb : ∀ op ∈ [BrokerOp.market "BTC" "buy" (QtySpec.qty (1/10)) (some 45000)],
      op.WF := by
    intro op hop
    simp only [List.mem_singleton] at hop
    subst hop
    exact ⟨by norm_num [QtySpec.WF], by norm_num⟩
  have hcash : (1:ℚ) * 200 > (TState.fresh 100).cash := by
    simp only [TState.fresh]
    norm_num
  refine ⟨by norm_num, hwf, h.1 10000 _ (by norm_num) hwf,
    h.2.1 10000 _ (by norm_num) hwf, hwfb,
    h.2.2.1 10000 _ (by norm_num) hwfb, hcash,
    h.2.2.2.1 _ _ _ _ _ hcash,
    h.2.2.2.2 _ _ _ _ _ (by norm_num [multiMinTradeSize]) hcash⟩

/-- C1 counterexample: `place_order("BTC", "buy", -1, 45000)` on a fresh
$10,000 `VirtualTrader` passes validation (required cash -45000 is not
greater than 10000), is filled, credits the account to $55,000 and leaves a
position of quantity -1 — a reachable state violating `quantity >= 0`. -/
theorem C1_no_negative_state_counterexample :
    lookupPos (virtualRun (TState.fresh 10000)
        [TraderOp.place "BTC" "buy" (-1) 45000 "market"]).positions "BTC"
      = some ⟨-1, 0⟩
  ∧ (virtualRun (TState.fresh 10000)
        [TraderOp.place "BTC" "buy" (-1) 45000 "market"]).cash = 55000
  ∧ ¬ ((0:ℚ) ≤ -1) := by
  norm_num [virtualRun, virtualStep, virtualPlaceOrder, virtualExecuteOrder,
    lookupPos, setPos, buyPos, TState.fresh, recordFill]

/-- C2 (corrected).  As stated the claim is false: a sell executed at a price
different from the recorded average entry price changes
`cash + Σ quantity * avg_price` by the realized gain (see the counterexample;
the traders charge no fees).  Amended: for any sequence of `place_order`
calls with nonnegative quantities on a fresh `VirtualTrader`,
`cash + Σ(position.quantity * position.avg_price)` equals `starting_cash`
plus the realized profit-and-loss of the executed sells (`quantity *
(sell price - avg_price at fill time)`); fees are identically zero.  In
particular the claimed identity holds exactly for buy-only sequences. -/
theorem C2_conservation_amended (start : ℚ) (ops : List TraderOp)
    (h0 : 0 ≤ start) (hops : ∀ op ∈ ops, op.WF ∧ op.IsPlace) :
    (virtualRun (TState.fresh start) ops).cash
        + posValue (virtualRun (TState.fresh start) ops).positions
      = start + realizedTotal (TState.fresh start) ops := by
  have h := virtualRun_conservation (s := TState.fresh start)
    ⟨h0, h0, fun e he => absurd he (List.not_mem_nil e)⟩ hops
  simpa [TState.fresh, posValue] using h

/-- C2 witness: buy 1 BTC at $100 then sell it at $200 from $10,000; the
realized profit-and-loss is $100 and the books close at $10,100. -/
theorem C2_conservation_witness :
    ((0:ℚ) ≤ 10000)
  ∧ (∀ op ∈ [TraderOp.place "BTC" "buy" 1 100 "market",
             TraderOp.place "BTC" "sell" 1 200 "market"], op.WF ∧ op.IsPlace)
  ∧ (virtualRun (TState.fresh 10000)
        [TraderOp.place "BTC" "buy" 1 100 "market",
         TraderOp.place "BTC" "sell" 1 200 "market"]).cash
      + posValue (virtualRun (TState.fresh 10000)
        [TraderOp.place "BTC" "buy" 1 100 "market",
         TraderOp.place "BTC" "sell" 1 200 "market"]).positions
      = 10000 + realizedTotal (TState.fresh 10000)
        [TraderOp.place "BTC" "buy" 1 100 "market",
         TraderOp.place "BTC" "sell" 1 200 "market"]
  ∧ realizedTotal (TState.fresh 10000)
        [TraderOp.place "BTC" "buy" 1 100 "market",
         TraderOp.place "BTC" "sell" 1 200 "market"] = 100 := by
  have hwf : ∀ op ∈ [TraderOp.place "BTC" "buy" 1 100 "market",
      TraderOp.place "BTC" "sell" 1 200 "market"], op.WF ∧ op.IsPlace := by
    intro op hop
    simp only [List.mem_cons, List.mem_singleton, List.not_mem_nil, or_false] at hop
    rcases hop with hop | hop <;> subst hop <;>
      exact ⟨⟨by norm_num, by norm_num⟩, trivial⟩
  refine ⟨by norm_num, hwf, C2_conservation_amended 10000 _ (by norm_num) hwf, ?_⟩
  norm_num [realizedTotal, realizedStep, virtualStep, virtualPlaceOrder,
    virtualExecuteOrder, heldQty, heldAvg, lookupPos, setPos, buyPos,
    recordFill, TState.fresh,
    show ("buy" : String) ≠ "sell" by decide,
    show ("sell" : String) ≠ "buy" by decide]

/-- C2 counterexample: buy 1 BTC at $100 then sell it at $200, both
successful, from starting cash $10,000 with zero fees; the final
`cash + Σ quantity * avg_price` is $10,100, not `starting_cash - Σ fees
= 10000` — off by the $100 realized gain, far beyond rounding tolerance. -/
theorem C2_conservation_counterexample :
    (virtualPlaceOrder (TState.fresh 10000) "BTC" "buy" 1 100 "market").2.success = true
  ∧ (virtualPlaceOrder
        (virtualPlaceOrder (TState.fresh 10000) "BTC" "buy" 1 100 "market").1
        "BTC" "sell" 1 200 "market").2.success = true
  ∧ (virtualPlaceOrder
        (virtualPlaceOrder (TState.fresh 10000) "BTC" "buy" 1 100 "market").1
        "BTC" "sell" 1 200 "market").1.cash
      + posValue (virtualPlaceOrder
        (virtualPlaceOrder (TState.fresh 10000) "BTC" "buy" 1 100 "market").1
        "BTC" "sell" 1 200 "market").1.positions
      = 10100
  ∧ ((10100:ℚ) ≠ 10000 - 0) := by
  norm_num [virtualPlaceOrder, virtualExecuteOrder, lookupPos, setPos, buyPos,
    recordFill, TState.fresh, posValue,
    show ("buy" : String) ≠ "sell" by decide,
    show ("sell" : String) ≠ "buy" by decide]

/-- C3 (code bug).  The in-memory traders do reject an oversell, but
`PaperBroker` has no sell-side sufficiency check at all: a market sell of 0.2
BTC against a held position of 0.1 BTC (cash $1,000, reference price $50,000,
default 5 bps slippage / 10 bps fee) is FILLED, the full 0.2-BTC proceeds
plus fee ($10,004.995) are credited, and `_update_position` clamps the
would-be negative quantity to 0 — instead of the `InsufficientPosition`
rejection with unchanged state that the spec requires. -/
theorem C3_broker_oversell_codebug :
    ((1:ℚ)/10 < 2/10)
  ∧ brokerExecuteMarketOrder settingsSlippageBps settingsFeeBps 1000
        [("BTC", ⟨1/10, 45000⟩)] "BTC" "sell" (QtySpec.qty (2/10)) (some 50000)
      = ⟨"filled", 2200999/200, [("BTC", ⟨0, 45000⟩)], [⟨49975, 1/5, 1999/200⟩]⟩ := by
  norm_num [brokerExecuteMarketOrder, brokerUpdatePosition,
    settingsSlippageBps, settingsFeeBps, lookupPos, setPos,
    show ("sell" : String) ≠ "buy" by decide]

/-- C4 (code bug).  On the scenario input (cash $10,000, market buy of 0.1
BTC at reference price $45,000, slippage 5 bps, fee 10 bps) the broker does
set the execution price to 45000 * (1 + 5/10000) = 45022.5 and the fee to
(0.1 * 45022.5) * (10/10000) = 4.50225, and records the position
{qty 0.1, avg_price 45022.5}; but `_execute_market_order` debits
`notional - fee` for a buy (the fee is credited to the buyer), leaving cash
5502.25225 = 110045045/20000 instead of the 10000 - 4502.25 - 4.50 = 5493.25
required by the claim. -/
theorem C4_buy_fee_sign_codebug :
    brokerExecuteMarketOrder settingsSlippageBps settingsFeeBps 10000 []
        "BTC" "buy" (QtySpec.qty (1/10)) (some 45000)
      = ⟨"filled", 110045045/20000, [("BTC", ⟨1/10, 90045/2⟩)],
         [⟨90045/2, 1/10, 90045/20000⟩]⟩
  ∧ ((110045045/20000 : ℚ) ≠ 10000 - 4502.25 - 4.50) := by
  norm_num [brokerExecuteMarketOrder, brokerUpdatePosition,
    settingsSlippageBps, settingsFeeBps, lookupPos, setPos]

/-- The avg-price recursion applied twice to a fresh position gives the
volume-weighted average exactly. -/
theorem buyPos_twice_fresh {q1 p1 q2 p2 : ℚ} (hq1 : 0 < q1) (hq2 : 0 < q2) :
    buyPos (buyPos ⟨0, 0⟩ q1 p1) q2 p2
      = ⟨q1 + q2, (q1 * p1 + q2 * p2) / (q1 + q2)⟩ := by
  have h1 : (0:ℚ) + q1 > 0 := by linarith
  have h2 : (0:ℚ) + q1 + q2 > 0 := by linarith
  have hne1 : (0:ℚ) + q1 ≠ 0 := ne_of_gt h1
  have hne2 : (0:ℚ) + q1 + q2 ≠ 0 := ne_of_gt h2
  simp only [buyPos, if_pos h1, if_pos h2]
  refine congrArg₂ Pos.mk (by ring) ?_
  rw [mul_comm ((0:ℚ) + q1) ((0 * 0 + q1 * p1) / (0 + q1)), div_mul_cancel₀ _ hne1]
  norm_num

/-- C5 (corrected).  The claimed identity describes the recursion's formula,
not the source's arithmetic: `VirtualTrader` computes it in binary floats,
where it can fail by rounding (see the counterexample: buying 1 @ 0.1 then
1 @ 0.2 yields avg 0.15000000000000002..., not 0.15), and `PaperBroker`'s
`Decimal` division rounds to its context precision.  Amended, what holds is:
(1) in exact arithmetic, a buy of `q1` at `p1` then `q2` at `p2`
(`q1, q2 > 0`) on a flat instrument yields quantity `q1 + q2` and
`avg_price = (q1*p1 + q2*p2) / (q1+q2)` exactly, both in
`VirtualTrader._execute_order` and in `PaperBroker._update_position`; and
(2) the claim's concrete example is drift-free even in the source's binary
float arithmetic: buying 0.1 BTC at 45000 then 0.1 BTC at 47000 (quantities
the float literal 0.1) yields avg_price exactly 46000 and quantity
float(0.2). -/
theorem C5_avg_price :
    (∀ (s : TState) (symbol : String) (q1 p1 q2 p2 : ℚ) (ot1 ot2 st1 st2 : String),
        0 < q1 → 0 < q2 → lookupPos s.positions symbol = none →
        lookupPos (virtualExecuteOrder
            ((virtualExecuteOrder s ⟨symbol, "buy", q1, p1, ot1, st1⟩).1)
            ⟨symbol, "buy", q2, p2, ot2, st2⟩).1.positions symbol
          = some ⟨q1 + q2, (q1 * p1 + q2 * p2) / (q1 + q2)⟩)
  ∧ (∀ (m : PosMap) (instrument : String) (q1 p1 q2 p2 : ℚ),
        0 < q1 → 0 < q2 → lookupPos m instrument = none →
        lookupPos (brokerUpdatePosition
            (brokerUpdatePosition m instrument q1 p1 "buy")
            instrument q2 p2 "buy") instrument
          = some ⟨q1 + q2, (q1 * p1 + q2 * p2) / (q1 + q2)⟩)
  ∧ buyPosFloat (buyPosFloat ⟨0, 0⟩ (roundDouble (1/10)) 45000)
        (roundDouble (1/10)) 47000
      = ⟨3602879701896397 / 2 ^ 54, 46000⟩ := by
  refine ⟨?_, ?_, ?_⟩
  · intro s symbol q1 p1 q2 p2 ot1 ot2 st1 st2 hq1 hq2 hnone
    rw [virtualExecuteOrder_fst_buy rfl]
    simp only [recordFill_positions]
    rw [virtualExecuteOrder_fst_buy rfl]
    simp only [recordFill_positions, hnone, Option.getD_none]
    rw [lookupPos_setPos_self, lookupPos_setPos_self, Option.getD_some,
      buyPos_twice_fresh hq1 hq2]
  · intro m instrument q1 p1 q2 p2 hq1 hq2 hnone
    have hstep1 : brokerUpdatePosition m instrument q1 p1 "buy"
        = setPos m instrument ⟨q1, p1⟩ := by
      simp [brokerUpdatePosition, hnone]
    rw [hstep1]
    have hlk1 : lookupPos (setPos m instrument ⟨q1, p1⟩) instrument
        = some ⟨q1, p1⟩ := lookupPos_setPos_self _ _ _
    have hq1ne : q1 ≠ 0 := ne_of_gt hq1
    simp only [brokerUpdatePosition, hlk1, Option.getD_some, if_true,
      if_neg hq1ne]
    rw [lookupPos_setPos_self]
  · rw [rd_tenth, buyPosFloat_scenario_step1, buyPosFloat_scenario_step2]

/-- C5 witness: buy 0.1 BTC at $45,000 then 0.1 BTC at $47,000 from a flat
position; both embeddings record quantity 0.2 at avg_price $46,000 exactly. -/
theorem C5_avg_price_witness :
    ((0:ℚ) < 1/10)
  ∧ lookupPos (TState.fresh 10000).positions "BTC" = none
  ∧ lookupPos (virtualExecuteOrder
        ((virtualExecuteOrder (TState.fresh 10000)
          ⟨"BTC", "buy", 1/10, 45000, "market", "pending"⟩).1)
        ⟨"BTC", "buy", 1/10, 47000, "market", "pending"⟩).1.positions "BTC"
      = some ⟨1/5, 46000⟩
  ∧ lookupPos (brokerUpdatePosition
        (brokerUpdatePosition [] "BTC" (1/10) 45000 "buy")
        "BTC" (1/10) 47000 "buy") "BTC"
      = some ⟨1/5, 46000⟩ := by
  have h := C5_avg_price
  refine ⟨by norm_num, by simp [TState.fresh, lookupPos], ?_, ?_⟩
  · have h1 := h.1 (TState.fresh 10000) "BTC" (1/10) 45000 (1/10) 47000
      "market" "market" "pending" "pending" (by norm_num) (by norm_num)
      (by simp [TState.fresh, lookupPos])
    rw [h1]
    norm_num
  · have h2 := h.2.1 [] "BTC" (1/10) 45000 (1/10) 47000
      (by norm_num) (by norm_num) (by simp [lookupPos])
    rw [h2]
    norm_num

/-- C5 counterexample: with the source's binary-float arithmetic (every
operation rounded to binary64 by `roundDouble`), buying 1 unit at the float
literal 0.1 and then 1 unit at the float literal 0.2 yields
avg_price = 1351079888211149/2^53 = 0.15000000000000002220446049250313...,
which differs both from the volume-weighted average of the stored prices,
(1*float(0.1) + 1*float(0.2)) / (1+1) = 10808639105689191/2^56, and from the
decimal value 0.15 — so avg_price is NOT exactly (q1*p1 + q2*p2)/(q1+q2) and
rounding drift does occur. -/
theorem C5_avg_price_counterexample :
    (buyPosFloat (buyPosFloat ⟨0, 0⟩ 1 (roundDouble (1/10))) 1
        (roundDouble (2/10))).avg_price
      = 1351079888211149 / 2 ^ 53
  ∧ (1 * roundDouble (1/10) + 1 * roundDouble (2/10)) / (1 + 1)
      = 10808639105689191 / 2 ^ 56
  ∧ (1351079888211149 / 2 ^ 53 : ℚ) ≠ 10808639105689191 / 2 ^ 56
  ∧ (1351079888211149 / 2 ^ 53 : ℚ) ≠ 3 / 20 := by
  refine ⟨?_, ?_, by norm_num, by norm_num⟩
  · rw [rd_tenth, rd_fifth, buyPosFloat_drift_step1, buyPosFloat_drift_step2]
  · rw [rd_tenth, rd_fifth]
    norm_num

/-- C6 (corrected).  As stated over "every order submission" the claim is
false: only `MultiCryptoTrader` has a minimum-trade-size check;
`VirtualTrader.place_order` (and `PaperBroker.create_order`) perform none and
accept trades below $10 (see the counterexample).  Amended: in
`MultiCryptoTrader`, any order whose trade value `quantity * price` is below
the configured minimum (`min_trade_size = 10`) is rejected with the
below-minimum result and no state change, regardless of side or order type. -/
theorem C6_min_trade_size_amended (s : TState) (symbol side : String)
    (quantity price : ℚ) (order_type : String)
    (h : quantity * price < multiMinTradeSize) :
    multiPlaceOrder s symbol side quantity price order_type =
      (s, ⟨false, .belowMinimum⟩) :=
  multiPlaceOrder_below_min h

/-- C6 witness: a $0.10 buy on a fresh `MultiCryptoTrader` is rejected
below-minimum with the state unchanged. -/
theorem C6_min_trade_size_witness :
    ((1:ℚ)/10000 * 1000 < multiMinTradeSize)
  ∧ multiPlaceOrder (TState.fresh 10000) "BTC" "buy" (1/10000) 1000 "market"
      = (TState.fresh 10000, ⟨false, .belowMinimum⟩) := by
  refine ⟨by norm_num [multiMinTradeSize], ?_⟩
  exact C6_min_trade_size_amended _ _ _ _ _ _ (by norm_num [multiMinTradeSize])

/-- C6 counterexample: `VirtualTrader` accepts and fills a $0.10 buy
(trade value far below the $10 minimum), debiting the cash balance. -/
theorem C6_min_trade_size_counterexample :
    ((1:ℚ)/10000 * 1000 < 10)
  ∧ (virtualPlaceOrder (TState.fresh 10000) "BTC" "buy" (1/10000) 1000 "market").2
      = ⟨true, .orderExecuted⟩
  ∧ (virtualPlaceOrder (TState.fresh 10000) "BTC" "buy" (1/10000) 1000 "market").1.cash
      = 99999/10 := by
  norm_num [virtualPlaceOrder, virtualExecuteOrder, lookupPos, setPos, buyPos,
    recordFill, TState.fresh, show ("buy" : String) ≠ "sell" by decide]

/-- C7 (corrected).  The rejection condition and its evaluation before any
mutation are as claimed, but the valuation is not: `place_order` values every
held position — including other symbols — at the submitted order's `price`
(`sum(pos["quantity"] * price ...)`), not at per-symbol current market prices
(see the counterexample against the spec formula `specPositionPct`).
Amended: for a buy that passes the minimum-size and cash checks,
`MultiCryptoTrader.place_order` rejects with the position-limit result and no
state change exactly when `(existing_position_value + trade_value) /
(cash + Σ quantity_i * price + trade_value) > max_position_pct`, where every
position is valued at the order's own price. -/
theorem C7_position_limit_amended (s : TState) (symbol : String)
    (quantity price : ℚ) (order_type : String)
    (h0 : ¬ quantity * price < multiMinTradeSize)
    (h1 : ¬ quantity * price > s.cash) :
    multiPlaceOrder s symbol "buy" quantity price order_type
        = (s, ⟨false, .positionLimit⟩)
      ↔ multiPositionPct s symbol quantity price > multiMaxPositionPct := by
  constructor
  · intro heq
    by_contra hnot
    rw [multiPlaceOrder_pass h0 (fun hh => h1 hh.2) (fun hh => hnot hh.2)
        (fun hh => absurd hh.1 (by decide))] at heq
    by_cases hmkt : order_type = "market"
    · rw [if_pos hmkt] at heq
      have h2 : (multiExecuteOrder s
            ⟨symbol, "buy", quantity, price, order_type, "pending"⟩).2
          = ⟨false, .positionLimit⟩ := congrArg Prod.snd heq
      rw [multiExecuteOrder_snd] at h2
      simp at h2
    · rw [if_neg hmkt] at heq
      have h2 : (⟨true, .orderPlaced⟩ : OrderResult)
          = ⟨false, .positionLimit⟩ := congrArg Prod.snd heq
      simp at h2
  · intro hgt
    exact multiPlaceOrder_position_limit h0 h1 hgt

/-- C7 witness: buying $9,000 of BTC against $10,000 cash and no holdings
gives concentration 9000/19000 ≈ 47% > 30%, and the order is rejected with
the position-limit result, state unchanged. -/
theorem C7_position_limit_witness :
    (¬ (1:ℚ) * 9000 < multiMinTradeSize)
  ∧ (¬ (1:ℚ) * 9000 > (TState.fresh 10000).cash)
  ∧ multiPositionPct (TState.fresh 10000) "BTC" 1 9000 > multiMaxPositionPct
  ∧ multiPlaceOrder (TState.fresh 10000) "BTC" "buy" 1 9000 "market"
      = (TState.fresh 10000, ⟨false, .positionLimit⟩) := by
  have hmin : ¬ (1:ℚ) * 9000 < multiMinTradeSize := by norm_num [multiMinTradeSize]
  have hcash : ¬ (1:ℚ) * 9000 > (TState.fresh 10000).cash := by
    norm_num [TState.fresh]
  have hpct : multiPositionPct (TState.fresh 10000) "BTC" 1 9000 > multiMaxPositionPct := by
    norm_num [multiPositionPct, multiMaxPositionPct, TState.fresh, lookupPos]
  exact ⟨hmin, hcash, hpct,
    (C7_position_limit_amended _ _ _ _ "market" hmin hcash).mpr hpct⟩

/-- C7 counterexample: cash $1,000, holding 1 ETH whose market price is $10;
a buy of 0.09 BTC at $10,000 (equal to BTC's market price, trade value $900)
is FILLED by the code — it values the ETH holding at the BTC order price,
giving 900/11900 ≈ 7.6% — whereas the spec formula at market prices gives
900/1910 ≈ 47% > 30% and mandates a position-limit rejection. -/
theorem C7_position_limit_counterexample :
    lookupPrice [("ETH", 10), ("BTC", 10000)] "BTC" = some 10000
  ∧ (multiPlaceOrder ⟨10000, 1000, [("ETH", ⟨1, 2000⟩)], [], []⟩
        "BTC" "buy" (9/100) 10000 "market").2
      = ⟨true, .orderExecuted⟩
  ∧ specPositionPct 1000 [("ETH", ⟨1, 2000⟩)] [("ETH", 10), ("BTC", 10000)]
        "BTC" ((9/100) * 10000)
      > multiMaxPositionPct := by
  refine ⟨by simp [lookupPrice], ?_, ?_⟩
  · norm_num [multiPlaceOrder, multiPositionPct, multiExecuteOrder,
      multiMinTradeSize, multiMaxPositionPct, lookupPos, setPos, buyPos, recordFill,
      show ("ETH" : String) ≠ "BTC" by decide,
      show ("buy" : String) ≠ "sell" by decide]
  · norm_num [specPositionPct, lookupPos, lookupPrice, multiMaxPositionPct,
      show ("ETH" : String) ≠ "BTC" by decide]

/-- C8 (corrected).  As stated over "the portfolio snapshot" the claim is
false for `VirtualTrader.get_portfolio`, whose
`total_pnl_pct = (total_pnl / starting_cash) * 100` is unguarded and raises
`ZeroDivisionError` when `starting_cash = 0` (see the counterexample).
Amended: `MultiCryptoTrader.get_portfolio` guards the division
(`... if self.starting_cash > 0 else 0`), never divides by zero for any
account state, and returns `total_pnl_pct = 0` when `starting_cash = 0`;
`VirtualTrader.get_portfolio` completes whenever `starting_cash ≠ 0`. -/
theorem C8_pnl_pct_guard_amended :
    (∀ (s : TState) (prices : PriceMap), (multiGetPortfolio s prices).isSome)
  ∧ (∀ (s : TState) (prices : PriceMap), s.starting_cash = 0 →
        (multiGetPortfolio s prices).map MPortfolio.total_pnl_pct = some 0)
  ∧ (∀ (s : TState) (prices : PriceMap), s.starting_cash ≠ 0 →
        (virtualGetPortfolio s prices).isSome) :=
  ⟨fun s prices => multiGetPortfolio_isSome s prices,
   fun _ prices h => multiGetPortfolio_pct_of_zero_start prices h,
   fun _ prices h => virtualGetPortfolio_isSome_of_start_ne_zero prices h⟩

/-- C8 witness: on a fresh zero-cash account `MultiCryptoTrader`'s snapshot
completes and reports `total_pnl_pct = 0`; on a fresh $10,000 account
`VirtualTrader`'s snapshot completes. -/
theorem C8_pnl_pct_guard_witness :
    (multiGetPortfolio (TState.fresh 0) [("BTC", 50000)]).isSome
  ∧ (TState.fresh 0).starting_cash = 0
  ∧ (multiGetPortfolio (TState.fresh 0) [("BTC", 50000)]).map
        MPortfolio.total_pnl_pct = some 0
  ∧ (TState.fresh 10000).starting_cash ≠ 0
  ∧ (virtualGetPortfolio (TState.fresh 10000) [("BTC", 50000)]).isSome := by
  have h := C8_pnl_pct_guard_amended
  exact ⟨h.1 _ _, rfl, h.2.1 _ _ rfl, by norm_num [TState.fresh],
    h.2.2 _ _ (by norm_num [TState.fresh])⟩

/-- C8 counterexample: `VirtualTrader(0.0).get_portfolio({})` divides the
overall profit-and-loss by `starting_cash = 0` and raises (modelled as
`none`), so the snapshot computation is not divide-by-zero-safe there. -/
theorem C8_pnl_pct_guard_counterexample :
    virtualGetPortfolio (TState.fresh 0) [] = none := by
  norm_num [virtualGetPortfolio, virtualRows, TState.fresh, pydiv]

/-- C9 (corrected).  For `VirtualTrader` the claim holds: both validations
are side-specific, so an unknown side skips them, and execution falls through
both branches — cash and positions untouched, order recorded "filled", trade
appended, success returned.  But in `MultiCryptoTrader` the minimum-trade-size
check runs before the side dispatch, so an unknown-side order below $10 is
rejected (see the counterexample); with that check passed, the same
frame-effect behaviour holds. -/
theorem C9_unknown_side_amended :
    (∀ (s : TState) (symbol side : String) (quantity price : ℚ),
        side ≠ "buy" → side ≠ "sell" →
        (virtualPlaceOrder s symbol side quantity price "market").1.cash = s.cash
      ∧ (virtualPlaceOrder s symbol side quantity price "market").1.positions
          = s.positions
      ∧ (virtualPlaceOrder s symbol side quantity price "market").1.orders
          = s.orders ++ [⟨symbol, side, quantity, price, "market", "filled"⟩]
      ∧ (virtualPlaceOrder s symbol side quantity price "market").1.trade_history
          = s.trade_history ++ [⟨symbol, side, quantity, price, "filled"⟩]
      ∧ (virtualPlaceOrder s symbol side quantity price "market").2
          = ⟨true, .orderExecuted⟩)
  ∧ (∀ (s : TState) (symbol side : String) (quantity price : ℚ),
        side ≠ "buy" → side ≠ "sell" →
        ¬ quantity * price < multiMinTradeSize →
        (multiPlaceOrder s symbol side quantity price "market").1.cash = s.cash
      ∧ (multiPlaceOrder s symbol side quantity price "market").1.positions
          = s.positions
      ∧ (multiPlaceOrder s symbol side quantity price "market").1.orders
          = s.orders ++ [⟨symbol, side, quantity, price, "market", "filled"⟩]
      ∧ (multiPlaceOrder s symbol side quantity price "market").1.trade_history
          = s.trade_history ++ [⟨symbol, side, quantity, price, "filled"⟩]
      ∧ (multiPlaceOrder s symbol side quantity price "market").2
          = ⟨true, .orderExecuted⟩) := by
  constructor
  · intro s symbol side quantity price hb hsl
    have h1 : ¬ (side = "buy" ∧ quantity * price > s.cash) := fun hh => hb hh.1
    have h2 : ¬ (side = "sell" ∧
        quantity > ((lookupPos s.positions symbol).getD ⟨0, 0⟩).quantity) :=
      fun hh => hsl hh.1
    rw [virtualPlaceOrder_pass h1 h2, if_pos rfl,
      virtualExecuteOrder_fst_other hb hsl, virtualExecuteOrder_snd]
    exact ⟨rfl, rfl, rfl, rfl, rfl⟩
  · intro s symbol side quantity price hb hsl h0
    have h1 : ¬ (side = "buy" ∧ quantity * price > s.cash) := fun hh => hb hh.1
    have h2 : ¬ (side = "buy" ∧
        multiPositionPct s symbol quantity price > multiMaxPositionPct) :=
      fun hh => hb hh.1
    have h3 : ¬ (side = "sell" ∧
        quantity > ((lookupPos s.positions symbol).getD ⟨0, 0⟩).quantity) :=
      fun hh => hsl hh.1
    rw [multiPlaceOrder_pass h0 h1 h2 h3, if_pos rfl,
      multiExecuteOrder_fst_other hb hsl, multiExecuteOrder_snd]
    exact ⟨rfl, rfl, rfl, rfl, rfl⟩

/-- C9 witness: a "hold"-side $100 market order on fresh $10,000 accounts of
both traders: no cash or position change, order recorded "filled", trade
appended, success result. -/
theorem C9_unknown_side_witness :
    (("hold" : String) ≠ "buy")
  ∧ (("hold" : String) ≠ "sell")
  ∧ (¬ (1:ℚ) * 100 < multiMinTradeSize)
  ∧ (virtualPlaceOrder (TState.fresh 10000) "BTC" "hold" 1 100 "market").1.cash
      = (TState.fresh 10000).cash
  ∧ (virtualPlaceOrder (TState.fresh 10000) "BTC" "hold" 1 100 "market").1.positions
      = (TState.fresh 10000).positions
  ∧ (virtualPlaceOrder (TState.fresh 10000) "BTC" "hold" 1 100 "market").2
      = ⟨true, .orderExecuted⟩
  ∧ (multiPlaceOrder (TState.fresh 10000) "BTC" "hold" 1 100 "market").1.cash
      = (TState.fresh 10000).cash
  ∧ (multiPlaceOrder (TState.fresh 10000) "BTC" "hold" 1 100 "market").2
      = ⟨true, .orderExecuted⟩ := by
  have h := C9_unknown_side_amended
  have hb : ("hold" : String) ≠ "buy" := by decide
  have hs : ("hold" : String) ≠ "sell" := by decide
  have hmin : ¬ (1:ℚ) * 100 < multiMinTradeSize := by norm_num [multiMinTradeSize]
  have h1 := h.1 (TState.fresh 10000) "BTC" "hold" 1 100 hb hs
  have h2 := h.2 (TState.fresh 10000) "BTC" "hold" 1 100 hb hs hmin
  exact ⟨hb, hs, hmin, h1.1, h1.2.1, h1.2.2.2.2, h2.1, h2.2.2.2.2⟩

/-- C9 counterexample: in `MultiCryptoTrader` an unknown-side order does NOT
bypass every validation: a "hold" order worth $0.10 is rejected by the
minimum-trade-size check — not marked filled, not appended, no success. -/
theorem C9_unknown_side_counterexample :
    multiPlaceOrder (TState.fresh 10000) "BTC" "hold" (1/10000) 1000 "market"
      = (TState.fresh 10000, ⟨false, .belowMinimum⟩) := by
  norm_num [multiPlaceOrder, multiMinTradeSize, TState.fresh]

/-- C10 (confirmed).  `reset_portfolio` (identical in both in-memory traders)
tests its argument for truthiness: with `None` or `0` the prior
`starting_cash` is kept and `cash` is restored to it; in every case
positions, orders and trade history are cleared. -/
theorem C10_reset_truthiness :
    (∀ (s : TState) (c : Option ℚ),
        (traderReset s c).positions = [] ∧ (traderReset s c).orders = []
          ∧ (traderReset s c).trade_history = [])
  ∧ (∀ s : TState, traderReset s none
        = ⟨s.starting_cash, s.starting_cash, [], [], []⟩)
  ∧ (∀ s : TState, traderReset s (some 0)
        = ⟨s.starting_cash, s.starting_cash, [], [], []⟩) := by
  refine ⟨fun s c => ⟨rfl, rfl, rfl⟩, fun s => rfl, fun s => ?_⟩
  simp [traderReset]

end FintechAgent
